import Mathlib

/-!
Verification of the contract-analysis orchestration pipeline
(`src/client/src/lib/gemini.ts`) against its natural-language specification.

The TypeScript source is shallowly embedded: every function under scrutiny is
translated into an executable Lean definition operating on explicit data
(strings as `String`, JS `null`/`undefined` collapsed into `Option`, JS
truthiness made explicit).  JavaScript string primitives used by the source
(`trim`, `toLowerCase`, `includes`, `split`, `substring`) are re-implemented
character-by-character; `toLowerCase` is implemented for the ASCII and Cyrillic
ranges, which covers every string the pipeline manipulates.
-/

namespace ContractAnalyzer

/-- Whitespace characters recognised by JavaScript's `String.prototype.trim`
and by the `\s` regex class (restricted to the characters that occur in the
pipeline's data). -/
def jsIsWhitespace (c : Char) : Bool :=
  c = ' ' || c = '\t' || c = '\n' || c = '\r' || c = '\x0b' || c = '\x0c' ||
  c = '\u00A0' || c = '\uFEFF' || c = '\u2028' || c = '\u2029'

/-- Embedding of JavaScript `s.trim()`. -/
def jsTrim (s : String) : String :=
  ⟨((s.data.dropWhile jsIsWhitespace).reverse.dropWhile jsIsWhitespace).reverse⟩

/-- Embedding of JavaScript `toLowerCase` on a single character, covering the
ASCII and Cyrillic alphabets (the only alphabets appearing in the data). -/
def jsToLowerChar (c : Char) : Char :=
  if 'A' ≤ c && c ≤ 'Z' then Char.ofNat (c.toNat + 32)
  else if 'А' ≤ c && c ≤ 'Я' then Char.ofNat (c.toNat + 32)
  else if c = 'Ё' then 'ё'
  else c

/-- Embedding of JavaScript `s.toLowerCase()`. -/
def jsToLower (s : String) : String :=
  ⟨s.data.map jsToLowerChar⟩

/-- Embedding of JavaScript `s.substring(0, n)`. -/
def jsSubstringTo (s : String) (n : Nat) : String :=
  ⟨s.data.take n⟩

/-- Structural split of a character list at every character satisfying `p`,
keeping empty pieces — the behaviour of JavaScript `split` with a
single-character-class regex. -/
def listSplit (p : Char → Bool) : List Char → List (List Char)
  | [] => [[]]
  | c :: cs =>
    let rest := listSplit p cs
    if p c then [] :: rest
    else
      match rest with
      | [] => [[c]]
      | piece :: more => (c :: piece) :: more

/-- Embedding of JavaScript `s.split(...)` for a character-class separator. -/
def jsSplit (p : Char → Bool) (s : String) : List String :=
  (listSplit p s.data).map fun l => ⟨l⟩

/-- Does the character list `s` start with the character list `pat`? -/
def listStartsWith : List Char → List Char → Bool
  | _, [] => true
  | [], _ :: _ => false
  | c :: cs, p :: ps => c = p && listStartsWith cs ps

/-- Does the character list `s` contain `pat` as a contiguous run?  This is
JavaScript `String.prototype.includes` on character lists. -/
def listContains : List Char → List Char → Bool
  | [], pat => pat.isEmpty
  | c :: cs, pat => listStartsWith (c :: cs) pat || listContains cs pat

/-- Embedding of JavaScript `s.includes(pat)`. -/
def containsStr (s pat : String) : Bool :=
  listContains s.data pat.data

/-- JavaScript truthiness of a nullable string: `null`/`undefined` and the
empty string are falsy, every other string is truthy. -/
def truthyStr : Option String → Bool
  | none => false
  | some s => s ≠ ""

/-- Embedding of the JavaScript pattern `x || null` for a nullable string
`x`: a falsy value (absent or empty string) collapses to `null`. -/
def jsOrNull : Option String → Option String
  | none => none
  | some s => if s = "" then none else some s

/-- Paragraph produced by the segmenter: `{id, text}`. -/
structure Paragraph where
  id : String
  text : String
deriving Repr, DecidableEq

/-- Per-paragraph analysis record returned by a chunk-analysis model call,
`{id, category, comment, recommendation, improvedClause, legalRisk}` with JS
`null`/`undefined` collapsed into `Option.none`. -/
structure AnalysisItem where
  id : String
  category : Option String
  comment : Option String
  recommendation : Option String
  improvedClause : Option String
  legalRisk : Option String
deriving Repr, DecidableEq

/-- Paragraph of the final report (`ContractParagraph` of the shared schema),
as assembled by `analyzeContractWithGemini`'s finalisation stage. -/
structure ContractParagraph where
  id : String
  text : String
  category : Option String
  comment : Option String
  recommendation : Option String
  improvedClause : Option String
  legalRisk : Option String
  isExpanded : Bool
deriving Repr, DecidableEq

/-! ## Cleanup of `category: null` items (`analyzeContractWithGemini`, stage 3)

The source walks every `chunkResult.analysis` and reclassifies an item as
`"ambiguous"` when `category` is `null`/`undefined` while `comment`,
`recommendation`, `improvedClause` or `legalRisk` is truthy. -/

/-- One step of the cleanup: the body of the `chunkResult.analysis.map` in
`analyzeContractWithGemini` (condition written with JS truthiness). -/
def cleanAnalysisItem (item : AnalysisItem) : AnalysisItem :=
  if item.category.isNone &&
      (truthyStr item.comment || truthyStr item.recommendation ||
       truthyStr item.improvedClause || truthyStr item.legalRisk) then
    { item with category := some "ambiguous" }
  else item

/-- Cleanup pass over an aggregated list of analysis items. -/
def cleanupAnalysis (items : List AnalysisItem) : List AnalysisItem :=
  items.map cleanAnalysisItem

/-! ## Final assembly (`analyzeContractWithGemini`, stage 8) -/

/-- Embedding of the `contractParagraphs` construction: each paragraph is
joined with the first analysis item of the same id (`Array.prototype.find`),
each analysis field being defaulted to `null` when falsy (`?.field || null`). -/
def buildContractParagraphs (paragraphs : List Paragraph)
    (allAnalysis : List AnalysisItem) : List ContractParagraph :=
  paragraphs.map fun paragraph =>
    let analysis := allAnalysis.find? fun item => item.id == paragraph.id
    { id := paragraph.id
      text := paragraph.text
      category := jsOrNull (analysis.bind (·.category))
      comment := jsOrNull (analysis.bind (·.comment))
      recommendation := jsOrNull (analysis.bind (·.recommendation))
      improvedClause := jsOrNull (analysis.bind (·.improvedClause))
      legalRisk := jsOrNull (analysis.bind (·.legalRisk))
      isExpanded := false }

/-- Embedding of `const ambiguousConditions = contractParagraphs.filter(p =>
p.category === 'ambiguous')`. -/
def ambiguousConditions (contractParagraphs : List ContractParagraph) :
    List ContractParagraph :=
  contractParagraphs.filter fun p => p.category == some "ambiguous"

/-! ## Programmatic rights-imbalance analysis
(`analyzeRightsImbalanceProgrammatically`) -/

/-- Clause classification returned by the rights classifier:
`{id, party, type}`. -/
structure ClassifiedClause where
  id : String
  party : String
  type : String
deriving Repr, DecidableEq

/-- Rights-imbalance finding.  The source record also carries free-text
`description`/`recommendation` strings and the supporting clause lists; the
embedding keeps the fields the analysis logic computes (identifier, type,
severity and the two counts). -/
structure RightsImbalanceFinding where
  id : String
  type : String
  severity : String
  buyerRights : Nat
  supplierRights : Nat
deriving Repr, DecidableEq

/-- Text of the paragraph with the given id, `''` when absent — embedding of
`allParagraphs.find(p => p.id === c.id)?.text || ''` followed by
`toLowerCase()`. -/
def clauseTextLower (allParagraphs : List Paragraph) (c : ClassifiedClause) :
    String :=
  jsToLower ((allParagraphs.find? fun p => p.id == c.id).map (·.text) |>.getD "")

/-- Keyword sanity filter used by `analyzeRightsImbalanceProgrammatically` for
the `modification` category. -/
def modificationKeywordCheck (text : String) : Bool :=
  containsStr text "односторонн" || containsStr text "вправе изменить" ||
  containsStr text "может изменить" || containsStr text "имеет право изменить"

/-- Keyword sanity filter for the `termination` category. -/
def terminationKeywordCheck (text : String) : Bool :=
  containsStr text "расторг" || containsStr text "отказ" ||
  containsStr text "прекрат" || containsStr text "аннулир"

/-- Keyword sanity filter for the `control` category. -/
def controlKeywordCheck (text : String) : Bool :=
  containsStr text "провер" || containsStr text "контрол" ||
  containsStr text "приемк" || containsStr text "отклон" ||
  containsStr text "инспекц"

/-- Keyword sanity filter dispatched on the category name (identity for any
other category, mirroring the three `if (type === ...)` blocks). -/
def categoryKeywordCheck (type : String) (text : String) : Bool :=
  if type = "modification" then modificationKeywordCheck text
  else if type = "termination" then terminationKeywordCheck text
  else if type = "control" then controlKeywordCheck text
  else true

/-- Liability part of `analyzeRightsImbalanceProgrammatically`: a finding is
pushed only when the supplier's liability-clause count strictly exceeds the
buyer's, with severity `high` when it exceeds it by more than one. -/
def liabilityImbalance (buyerClauses supplierClauses : List ClassifiedClause) :
    List RightsImbalanceFinding :=
  let buyerLiability := buyerClauses.filter fun c => c.type == "liability"
  let supplierLiability := supplierClauses.filter fun c => c.type == "liability"
  if supplierLiability.length > 0 || buyerLiability.length > 0 then
    if supplierLiability.length > buyerLiability.length + 1 then
      [{ id := "imbalance_liability", type := "liability", severity := "high",
         buyerRights := buyerLiability.length,
         supplierRights := supplierLiability.length }]
    else if supplierLiability.length > buyerLiability.length then
      [{ id := "imbalance_liability", type := "liability", severity := "medium",
         buyerRights := buyerLiability.length,
         supplierRights := supplierLiability.length }]
    else []
  else []

/-- One iteration of the `typesToAnalyze.forEach` loop: after the keyword
sanity filter, a finding is pushed only when exactly one side has a positive
number of surviving clauses of this category. -/
def categoryImbalance (allParagraphs : List Paragraph)
    (buyerClauses supplierClauses : List ClassifiedClause) (type : String) :
    List RightsImbalanceFinding :=
  let buyerRights := buyerClauses.filter fun c => c.type == type
  let supplierRights := supplierClauses.filter fun c => c.type == type
  let validBuyerRights := buyerRights.filter fun c =>
    categoryKeywordCheck type (clauseTextLower allParagraphs c)
  let validSupplierRights := supplierRights.filter fun c =>
    categoryKeywordCheck type (clauseTextLower allParagraphs c)
  if validBuyerRights.length ≠ validSupplierRights.length &&
      (validBuyerRights.length == 0 || validSupplierRights.length == 0) then
    [{ id := "imbalance_" ++ type, type := type,
       severity := if type == "modification" then "high" else "medium",
       buyerRights := validBuyerRights.length,
       supplierRights := validSupplierRights.length }]
  else []

/-- Embedding of `analyzeRightsImbalanceProgrammatically` (the returned
`rightsImbalance` array; the accompanying `overallConclusion` string only
reports the length of this list). -/
def analyzeRightsImbalanceProgrammatically
    (classifiedClauses : List ClassifiedClause)
    (allParagraphs : List Paragraph) : List RightsImbalanceFinding :=
  let buyerClauses := classifiedClauses.filter fun c => c.party == "buyer"
  let supplierClauses := classifiedClauses.filter fun c => c.party == "supplier"
  liabilityImbalance buyerClauses supplierClauses ++
    categoryImbalance allParagraphs buyerClauses supplierClauses "modification" ++
    categoryImbalance allParagraphs buyerClauses supplierClauses "termination" ++
    categoryImbalance allParagraphs buyerClauses supplierClauses "control"

/-! ## Deterministic requirement-gap finder
(`findMissingRequirementsReliable`) -/

/-- Parsed checklist requirement: the cleaned text plus the lower-cased
50-character search phrase the matcher uses. -/
structure Requirement where
  id : String
  text : String
  searchPhrase : String
deriving Repr, DecidableEq

/-- Characters stripped from the front of a checklist line by the
`replace(/^[•\-\*\d\.]+\s*/, '')` call. -/
def isListMarkerChar (c : Char) : Bool :=
  c = '•' || c = '-' || c = '*' || c.isDigit || c = '.'

/-- Embedding of `req.replace(/^[•\-\*\d\.]+\s*/, '')`: the (maximal) leading
run of list-marker characters, if non-empty, is removed together with the
whitespace following it. -/
def stripListMarker (s : String) : String :=
  let rest := s.data.dropWhile isListMarkerChar
  if rest.length = s.data.length then s else ⟨rest.dropWhile jsIsWhitespace⟩

/-- Embedding of the checklist parsing in `findMissingRequirementsReliable`:
split on bullets and newlines, trim, strip list markers, keep lines longer
than 20 characters, record the lower-cased 50-character search phrase. -/
def parseRequirements (checklistText : String) : List Requirement :=
  let kept := ((jsSplit (fun c => c = '•' || c = '\n') checklistText).map
      fun r => stripListMarker (jsTrim r)).filter fun r => 20 < r.length
  kept.enum.map fun p =>
    { id := "req_" ++ toString (p.1 + 1), text := p.2,
      searchPhrase := jsToLower (jsSubstringTo p.2 50) }

/-- Exact marker emitted by the chunk-analysis prompt for a fully satisfied
checklist requirement. -/
def checklistMarker : String := "✅ Соответствует требованию:"

/-- Exact marker emitted for a partially satisfied checklist requirement. -/
def partialMarker : String := "🔶 Частично соответствует требованию:"

/-- Embedding of the `foundRequirementComments` collection: comments of
`checklist`/`partial` items that are truthy and contain one of the two match
markers, lower-cased. -/
def foundRequirementComments (allAnalysis : List AnalysisItem) : List String :=
  (allAnalysis.filter fun item =>
      (item.category == some "checklist" || item.category == some "partial") &&
      truthyStr item.comment &&
      (containsStr (item.comment.getD "") checklistMarker ||
       containsStr (item.comment.getD "") partialMarker)).map
    fun item => jsToLower (item.comment.getD "")

/-- Search terms for a requirement: its 50-character search phrase followed by
the first three words of the lower-cased text that are longer than 4
characters. -/
def searchTermsOf (r : Requirement) : List String :=
  r.searchPhrase ::
    ((jsSplit (fun c => c = ' ') (jsToLower r.text)).filter
      fun word => 4 < word.length).take 3

/-- Embedding of the `isFound` test: some collected comment contains some
search term of length greater than 4. -/
def requirementIsFound (comments : List String) (r : Requirement) : Bool :=
  comments.any fun comment =>
    (searchTermsOf r).any fun term => 4 < term.length && containsStr comment term

/-- Missing-requirement record `{requirement, comment}`. -/
structure MissingRequirement where
  requirement : String
  comment : String
deriving Repr, DecidableEq

/-- Fixed generic explanation attached to every missing requirement. -/
def genericMissingComment : String :=
  "Данное обязательное требование не было найдено в тексте договора."

/-- Embedding of `findMissingRequirementsReliable` (the returned
`missingRequirements` array). -/
def findMissingRequirementsReliable (allAnalysis : List AnalysisItem)
    (checklistText : String) : List MissingRequirement :=
  let allRequirements := parseRequirements checklistText
  let comments := foundRequirementComments allAnalysis
  (allRequirements.filter fun r => !(requirementIsFound comments r)).map
    fun r => ⟨r.text, genericMissingComment⟩

/-- Specification-side matching predicate, transcribed from the claim's own
words: an aggregated item with category `checklist` or `partial` whose comment
contains one of the match markers matches the requirement when the lower-cased
comment contains the requirement's first 50 characters (lower-cased) or one of
the first three words of the requirement longer than 4 characters. -/
def specCommentMatches (r : Requirement) (comment : String) : Bool :=
  containsStr (jsToLower comment) (jsToLower (jsSubstringTo r.text 50)) ||
    (((jsSplit (fun c => c = ' ') (jsToLower r.text)).filter
        fun word => 4 < word.length).take 3).any
      fun word => containsStr (jsToLower comment) word

/-- Specification-side collection of eligible comments (not lower-cased; the
spec-side matcher lower-cases on the fly). -/
def specEligibleComments (allAnalysis : List AnalysisItem) : List String :=
  (allAnalysis.filter fun item =>
      (item.category == some "checklist" || item.category == some "partial") &&
      truthyStr item.comment &&
      (containsStr (item.comment.getD "") checklistMarker ||
       containsStr (item.comment.getD "") partialMarker)).map
    fun item => item.comment.getD ""

/-- Specification-side gap finder, transcribed from the claim: a requirement
is reported as missing exactly when no eligible comment matches it, with the
fixed generic explanation. -/
def specMissingRequirements (allAnalysis : List AnalysisItem)
    (checklistText : String) : List MissingRequirement :=
  ((parseRequirements checklistText).filter fun r =>
      !((specEligibleComments allAnalysis).any fun comment =>
        specCommentMatches r comment)).map
    fun r => ⟨r.text, genericMissingComment⟩

/-- Five-item checklist used by the claim's gap-finder scenario. -/
def scenarioChecklist : String :=
  "• сроки поставки товара установлены конкретно\n" ++
  "• порядок оплаты товара определен подробно\n" ++
  "• гарантийные условия качества зафиксированы\n" ++
  "• неустойка за просрочку исполнения начислена\n" ++
  "• арбитражная оговорка включена обязательно"

/-- Aggregated analysis covering checklist items 1–3 with marker comments. -/
def scenarioAnalysis : List AnalysisItem :=
  [⟨"p1", some "checklist",
     some "✅ Соответствует требованию: сроки поставки товара установлены конкретно",
     none, none, none⟩,
   ⟨"p2", some "checklist",
     some "✅ Соответствует требованию: порядок оплаты товара определен подробно",
     none, none, none⟩,
   ⟨"p3", some "partial",
     some "🔶 Частично соответствует требованию: гарантийные условия качества зафиксированы",
     none, none, none⟩]

/-! ## Shared helper lemmas -/

/-- Any-over-map for maps that change the element type. -/
theorem listAnyMap {α β : Type} (f : α → β) (l : List α) (p : β → Bool) :
    (l.map f).any p = l.any fun a => p (f a) := by
  induction l with
  | nil => rfl
  | cons a l ih => simp [List.any_cons, ih]

/-- Dropping an always-true length guard from an `any` over a list whose
members all satisfy it. -/
theorem anyGuardDrop (l : List String) (h : ∀ w ∈ l, 4 < w.length)
    (f : String → Bool) :
    (l.any fun w => decide (4 < w.length) && f w) = l.any f := by
  induction l with
  | nil => rfl
  | cons w l ih =>
    rw [List.any_cons, List.any_cons, decide_eq_true (h w (by simp)), Bool.true_and,
      ih fun w hw => h w (by simp [hw])]

/-- Lower-casing preserves the character count. -/
theorem jsToLower_length (s : String) : (jsToLower s).length = s.length :=
  List.length_map s.data jsToLowerChar

/-- Every parsed requirement is longer than 20 characters and carries the
lower-cased 50-character search phrase of its own text. -/
theorem parseRequirements_fields (c : String) :
    ∀ r ∈ parseRequirements c,
      r.searchPhrase = jsToLower (jsSubstringTo r.text 50) ∧ 20 < r.text.length := by
  intro r hr
  rw [parseRequirements] at hr
  simp only [List.mem_map] at hr
  obtain ⟨⟨i, t⟩, hp, rfl⟩ := hr
  refine ⟨rfl, ?_⟩
  obtain ⟨hi, ht⟩ := List.mem_enum hp
  have htmem : t ∈ (((jsSplit (fun ch => ch = '•' || ch = '\n') c).map
      fun r => stripListMarker (jsTrim r)).filter fun r => 20 < r.length) := by
    rw [ht]; exact List.getElem_mem hi
  exact of_decide_eq_true (List.mem_filter.mp htmem).2

/-- Search-term matching of the source equals the claim-level matching
predicate, given the parsed-requirement invariants. -/
theorem termsAny_eq_specMatch (r : Requirement)
    (hphrase : r.searchPhrase = jsToLower (jsSubstringTo r.text 50))
    (hlen : 20 < r.text.length) (comment : String) :
    ((searchTermsOf r).any fun term =>
        decide (4 < term.length) && containsStr (jsToLower comment) term) =
      specCommentMatches r comment := by
  rw [searchTermsOf, specCommentMatches, List.any_cons, hphrase]
  have h1 : 4 < (jsToLower (jsSubstringTo r.text 50)).length := by
    rw [jsToLower_length]
    have : (jsSubstringTo r.text 50).length = min 50 r.text.length :=
      List.length_take 50 r.text.data
    rw [this]
    exact Nat.lt_min.mpr ⟨by norm_num, by omega⟩
  rw [decide_eq_true h1, Bool.true_and]
  congr 1
  refine anyGuardDrop _ ?_ _
  intro w hw
  have hw' := List.take_subset 3 _ hw
  exact of_decide_eq_true (List.mem_filter.mp hw').2

/-- Pointwise agreement of the source matcher (pre-lower-cased comments) with
the claim-level matcher (comments lower-cased on the fly). -/
theorem foundEqSpec (a : List AnalysisItem) (r : Requirement)
    (hphrase : r.searchPhrase = jsToLower (jsSubstringTo r.text 50))
    (hlen : 20 < r.text.length) :
    requirementIsFound (foundRequirementComments a) r =
      (specEligibleComments a).any fun comment => specCommentMatches r comment := by
  rw [requirementIsFound, foundRequirementComments, specEligibleComments,
    listAnyMap, listAnyMap]
  refine congrArg _ (funext fun item => ?_)
  exact termsAny_eq_specMatch r hphrase hlen (item.comment.getD "")

/-! ## Claim theorems -/

/-- C9.  The requirement-gap finder is deterministic (the embedding is a pure
function of the aggregated analysis and the checklist text) and reports as
missing exactly the checklist requirements matched by no aggregated
`checklist`/`partial` comment that carries a match marker, each with the fixed
generic explanation; on the five-item checklist scenario where items 1–3 have
matching comments, exactly items 4 and 5 are reported missing. -/
theorem findMissingRequirementsReliable_matches_spec
    (allAnalysis : List AnalysisItem) (checklistText : String) :
    findMissingRequirementsReliable allAnalysis checklistText =
      specMissingRequirements allAnalysis checklistText ∧
    findMissingRequirementsReliable scenarioAnalysis scenarioChecklist =
      [⟨"неустойка за просрочку исполнения начислена", genericMissingComment⟩,
       ⟨"арбитражная оговорка включена обязательно", genericMissingComment⟩] := by
  constructor
  · rw [findMissingRequirementsReliable, specMissingRequirements]
    refine congrArg _ (List.filter_congr fun r hr => ?_)
    obtain ⟨hphrase, hlen⟩ := parseRequirements_fields checklistText r hr
    rw [foundEqSpec allAnalysis r hphrase hlen]
  · decide

/-- Analysis item with null category and an empty-string (non-null but falsy)
comment. -/
def nullWithEmptyComment : AnalysisItem :=
  { id := "p1", category := none, comment := some "", recommendation := none,
    improvedClause := none, legalRisk := none }

/-- C6 counterexample: the cleanup step leaves an item whose category is null
while its comment is non-null — for a `comment` equal to the empty string the
source's JS truthiness test fires no reclassification, so an item with
`category = null` and a non-null comment survives the cleanup. -/
theorem cleanup_keeps_null_with_empty_comment :
    cleanupAnalysis [nullWithEmptyComment] = [nullWithEmptyComment] ∧
    nullWithEmptyComment.category = none ∧
    nullWithEmptyComment.comment ≠ none := by
  exact ⟨rfl, rfl, by decide⟩

/-- C6 (amended): the cleanup reclassifies to `ambiguous` exactly the items
whose category is null and one of whose `comment`, `recommendation`,
`improvedClause`, `legalRisk` fields is truthy (non-null and non-empty), and
after the cleanup no item has a null category together with a truthy one of
these fields. -/
theorem cleanup_reclassifies_truthy (items : List AnalysisItem) :
    ((cleanupAnalysis items).all fun item =>
        !(item.category.isNone &&
          (truthyStr item.comment || truthyStr item.recommendation ||
           truthyStr item.improvedClause || truthyStr item.legalRisk))) = true ∧
    ∀ item ∈ items, item.category = none →
      (truthyStr item.comment || truthyStr item.recommendation ||
       truthyStr item.improvedClause || truthyStr item.legalRisk) = true →
      cleanAnalysisItem item = { item with category := some "ambiguous" } := by
  constructor
  · rw [List.all_eq_true]
    intro item hitem
    obtain ⟨pre, _, rfl⟩ := List.mem_map.mp hitem
    by_cases h : (pre.category.isNone &&
        (truthyStr pre.comment || truthyStr pre.recommendation ||
         truthyStr pre.improvedClause || truthyStr pre.legalRisk)) = true
    · rw [cleanAnalysisItem, if_pos h]
      simp
    · rw [cleanAnalysisItem, if_neg h]
      rw [Bool.not_eq_true] at h
      simp [h]
  · intro item _ hcat htruthy
    rw [cleanAnalysisItem, if_pos]
    rw [hcat]
    simpa using htruthy

/-- Analysis item with null category and a truthy comment, for the C6
witness. -/
def nullWithTruthyComment : AnalysisItem :=
  { id := "p2", category := none, comment := some "нужно уточнить формулировку",
    recommendation := none, improvedClause := none, legalRisk := none }

/-- Witness for C6: the amended cleanup theorem applied to a concrete item
with null category and a truthy comment. -/
theorem cleanup_reclassifies_truthy_witness :
    cleanAnalysisItem nullWithTruthyComment =
      { nullWithTruthyComment with category := some "ambiguous" } :=
  (cleanup_reclassifies_truthy [nullWithTruthyComment]).2 nullWithTruthyComment
    (by decide) rfl (by decide)

/-- Single liability clause classified in the buyer's favour. -/
def buyerOnlyLiability : List ClassifiedClause :=
  [⟨"p1", "buyer", "liability"⟩]

/-- C4 counterexample: with one buyer liability clause and none for the
supplier, one party (the buyer) has strictly more liability-type clauses than
the other, yet the programmatic imbalance analysis produces no finding at
all — the source only fires when the supplier side has more. -/
theorem no_liability_finding_for_buyer_majority :
    analyzeRightsImbalanceProgrammatically buyerOnlyLiability [] = [] ∧
    (buyerOnlyLiability.filter fun c =>
        c.party == "buyer" && c.type == "liability").length = 1 ∧
    (buyerOnlyLiability.filter fun c =>
        c.party == "supplier" && c.type == "liability").length = 0 := by
  exact ⟨rfl, rfl, rfl⟩

/-- The category-imbalance findings never masquerade as liability findings. -/
theorem categoryImbalance_no_liability (ps : List Paragraph)
    (bc sc : List ClassifiedClause) (t : String) (h : (t == "liability") = false) :
    (categoryImbalance ps bc sc t).filter (fun f => f.type == "liability") = [] := by
  rw [categoryImbalance]
  split
  · simp [List.filter, h]
  · rfl

/-- C4 (amended): a liability-imbalance finding is produced exactly when the
supplier has strictly more liability-type clauses than the buyer — with
severity `high` when the difference exceeds 1 and `medium` otherwise, and with
`buyerRights`/`supplierRights` equal to the two counts; no finding is produced
when the buyer has more.  In particular the classified clauses
`[{p1,supplier,liability}, {p2,supplier,liability}, {p3,buyer,liability}]`
yield exactly one liability imbalance with `supplierRights = 2`,
`buyerRights = 1` and severity `medium`. -/
theorem liability_imbalance_characterisation (cs : List ClassifiedClause)
    (ps : List Paragraph) :
    ((analyzeRightsImbalanceProgrammatically cs ps).filter
        fun f => f.type == "liability") =
      (let b := (((cs.filter fun c => c.party == "buyer").filter
          fun c => c.type == "liability")).length
       let s := (((cs.filter fun c => c.party == "supplier").filter
          fun c => c.type == "liability")).length
       if b < s then
        [{ id := "imbalance_liability", type := "liability",
           severity := if b + 1 < s then "high" else "medium",
           buyerRights := b, supplierRights := s }]
       else []) ∧
    analyzeRightsImbalanceProgrammatically
        [⟨"p1", "supplier", "liability"⟩, ⟨"p2", "supplier", "liability"⟩,
         ⟨"p3", "buyer", "liability"⟩] [] =
      [{ id := "imbalance_liability", type := "liability", severity := "medium",
         buyerRights := 1, supplierRights := 2 }] := by
  constructor
  · rw [analyzeRightsImbalanceProgrammatically]
    simp only [List.filter_append,
      categoryImbalance_no_liability ps _ _ "modification" rfl,
      categoryImbalance_no_liability ps _ _ "termination" rfl,
      categoryImbalance_no_liability ps _ _ "control" rfl,
      List.append_nil]
    rw [liabilityImbalance]
    set b := (((cs.filter fun c => c.party == "buyer").filter
        fun c => c.type == "liability")).length with hb
    set s := (((cs.filter fun c => c.party == "supplier").filter
        fun c => c.type == "liability")).length with hs
    by_cases hlt : b < s
    · have hpos : 0 < s := Nat.lt_of_le_of_lt (Nat.zero_le b) hlt
      by_cases hhigh : b + 1 < s
      · simp [hlt, hhigh, hpos, List.filter_cons]
      · simp [hlt, hhigh, hpos, List.filter_cons]
    · have h1 : ¬(b + 1 < s) := by omega
      simp [hlt, h1]
  · decide

/-- Paragraph used in the C10 witness. -/
def ambiguousPar : Paragraph :=
  ⟨"p1", "поставка производится в разумные сроки"⟩

/-- Analysis item used in the C10 witness. -/
def ambiguousItem : AnalysisItem :=
  ⟨"p1", some "ambiguous", some "срок неоднозначен", none, none, none⟩

/-- Report paragraph built from `ambiguousPar`/`ambiguousItem`. -/
def ambiguousCP : ContractParagraph :=
  ⟨"p1", "поставка производится в разумные сроки", some "ambiguous",
   some "срок неоднозначен", none, none, none, false⟩

/-- C10: in the final assembly, `ambiguousConditions` is exactly the
subsequence of `contractParagraphs` whose category is `ambiguous` — it is a
sublist (hence preserves document order), all its members are contract
paragraphs with category `ambiguous`, and every contract paragraph with
category `ambiguous` appears in it. -/
theorem ambiguousConditions_exact (paragraphs : List Paragraph)
    (allAnalysis : List AnalysisItem) :
    (ambiguousConditions (buildContractParagraphs paragraphs allAnalysis)).Sublist
        (buildContractParagraphs paragraphs allAnalysis) ∧
    (∀ x ∈ ambiguousConditions (buildContractParagraphs paragraphs allAnalysis),
        x ∈ buildContractParagraphs paragraphs allAnalysis ∧
        x.category = some "ambiguous") ∧
    ∀ p ∈ buildContractParagraphs paragraphs allAnalysis,
        p.category = some "ambiguous" →
        p ∈ ambiguousConditions (buildContractParagraphs paragraphs allAnalysis) := by
  refine ⟨List.filter_sublist _, ?_, ?_⟩
  · intro x hx
    rw [ambiguousConditions, List.mem_filter] at hx
    exact ⟨hx.1, by simpa using hx.2⟩
  · intro p hp hcat
    rw [ambiguousConditions, List.mem_filter]
    exact ⟨hp, by simp [hcat]⟩

/-- Witness for C10: a concrete ambiguous paragraph lands in
`ambiguousConditions`. -/
theorem ambiguousConditions_exact_witness :
    ambiguousCP ∈ ambiguousConditions
      (buildContractParagraphs [ambiguousPar] [ambiguousItem]) :=
  (ambiguousConditions_exact [ambiguousPar] [ambiguousItem]).2.2 ambiguousCP
    (by decide) (by decide)

/-! ## Key pool (`ApiKeyPool`) -/

/-- State of the `ApiKeyPool` object: the credential list, the round-robin
cursor, the per-key usage counters (`keyUsageCount`) and the set of exhausted
keys. -/
structure ApiKeyPool where
  keys : List String
  currentIndex : Nat
  usageCount : String → Nat
  exhaustedKeys : List String

/-- Embedding of `this.exhaustedKeys.has(key)`. -/
def ApiKeyPool.isKeyExhausted (pool : ApiKeyPool) (key : String) : Bool :=
  pool.exhaustedKeys.contains key

/-- Embedding of `this.keys.filter(key => !this.exhaustedKeys.has(key))`. -/
def ApiKeyPool.availableKeys (pool : ApiKeyPool) : List String :=
  pool.keys.filter fun key => !(pool.isKeyExhausted key)

/-- Embedding of the unconditional cursor advance
`this.currentIndex = (this.currentIndex + 1) % this.keys.length`. -/
def ApiKeyPool.advanceCursor (pool : ApiKeyPool) : ApiKeyPool :=
  { pool with currentIndex := (pool.currentIndex + 1) % pool.keys.length }

/-- Embedding of the usage-counter bump performed when a key is handed out. -/
def ApiKeyPool.recordUse (pool : ApiKeyPool) (key : String) : ApiKeyPool :=
  { pool with usageCount := fun k =>
      if k = key then pool.usageCount key + 1 else pool.usageCount k }

/-- The `while (attempts < this.keys.length)` loop of `getNextKey`, with the
remaining number of attempts as fuel: it reads the key under the cursor,
always advances the cursor, and hands the key out unless it is exhausted. -/
def getNextKeyLoop : Nat → ApiKeyPool → Option (String × ApiKeyPool)
  | 0, _ => none
  | attempts + 1, pool =>
    let key := pool.keys.getD pool.currentIndex ""
    if pool.isKeyExhausted key then getNextKeyLoop attempts pool.advanceCursor
    else some (key, pool.advanceCursor.recordUse key)

/-- Embedding of `ApiKeyPool.getNextKey`: fails with the all-keys-exhausted
error when no key is available, otherwise runs the round-robin loop for at
most `keys.length` attempts (the loop's fall-through failure message is a
distinct error). -/
def getNextKey (pool : ApiKeyPool) : Except String (String × ApiKeyPool) :=
  if pool.availableKeys.length = 0 then
    Except.error "Все API ключи исчерпали свои квоты"
  else
    match getNextKeyLoop pool.keys.length pool with
    | some r => Except.ok r
    | none => Except.error "Не удалось найти доступный API ключ"

/-- Keys returned by `n` successive `getNextKey` calls, threading the pool
state (stopping early if a call fails). -/
def iterateGetNextKey : Nat → ApiKeyPool → List String
  | 0, _ => []
  | n + 1, pool =>
    match getNextKey pool with
    | Except.ok (key, pool') => key :: iterateGetNextKey n pool'
    | Except.error _ => []

/-- Loop characterisation: if the key list rotated to the cursor decomposes as
exhausted keys `pre`, then a non-exhausted key `k`, and the fuel covers `pre`
and `k`, the loop returns `k` and leaves the cursor just past it. -/
theorem getNextKeyLoop_spec (pre : List String) :
    ∀ (fuel : Nat) (pool : ApiKeyPool) (k : String) (post : List String),
    pool.currentIndex < pool.keys.length →
    pool.keys.rotate pool.currentIndex = pre ++ k :: post →
    (∀ x ∈ pre, pool.isKeyExhausted x = true) →
    pool.isKeyExhausted k = false →
    pre.length < fuel →
    getNextKeyLoop fuel pool = some (k,
      ({ pool with currentIndex :=
          (pool.currentIndex + pre.length + 1) % pool.keys.length } :
        ApiKeyPool).recordUse k) := by
  induction pre with
  | nil =>
    intro fuel pool k post hc hrot hpre hk hfuel
    obtain ⟨f, rfl⟩ : ∃ f, fuel = f + 1 := ⟨fuel - 1, by omega⟩
    have hN : 0 < pool.keys.length := Nat.lt_of_le_of_lt (Nat.zero_le _) hc
    have hkey : pool.keys.getD pool.currentIndex "" = k := by
      have hlen0 : 0 < (pool.keys.rotate pool.currentIndex).length := by
        rw [hrot]; simp
      have h0 : (pool.keys.rotate pool.currentIndex).get ⟨0, hlen0⟩ = k := by
        simp [hrot]
      rw [List.get_eq_getElem, List.getElem_rotate] at h0
      simp only [Nat.zero_add, Nat.mod_eq_of_lt hc] at h0
      rw [List.getD_eq_getElem?_getD, List.getElem?_eq_getElem hc, h0]
      rfl
    rw [getNextKeyLoop]
    simp only [hkey, hk, Bool.false_eq_true, if_false]
    rfl
  | cons p pre' ih =>
    intro fuel pool k post hc hrot hpre hk hfuel
    obtain ⟨f, rfl⟩ : ∃ f, fuel = f + 1 := ⟨fuel - 1, by omega⟩
    have hN : 0 < pool.keys.length := Nat.lt_of_le_of_lt (Nat.zero_le _) hc
    have hkey : pool.keys.getD pool.currentIndex "" = p := by
      have hlen0 : 0 < (pool.keys.rotate pool.currentIndex).length := by
        rw [hrot]; simp
      have h0 : (pool.keys.rotate pool.currentIndex).get ⟨0, hlen0⟩ = p := by
        simp [hrot]
      rw [List.get_eq_getElem, List.getElem_rotate] at h0
      simp only [Nat.zero_add, Nat.mod_eq_of_lt hc] at h0
      rw [List.getD_eq_getElem?_getD, List.getElem?_eq_getElem hc, h0]
      rfl
    have hc' : pool.advanceCursor.currentIndex < pool.advanceCursor.keys.length :=
      Nat.mod_lt _ hN
    have hrot' : pool.advanceCursor.keys.rotate pool.advanceCursor.currentIndex =
        pre' ++ k :: (post ++ [p]) := by
      show pool.keys.rotate ((pool.currentIndex + 1) % pool.keys.length) =
        pre' ++ k :: (post ++ [p])
      rw [List.rotate_mod, ← List.rotate_rotate, hrot]
      simp only [List.cons_append]
      have hrr := List.rotate_cons_succ (pre' ++ k :: post) p 0
      simp only [Nat.zero_add, List.rotate_zero] at hrr
      rw [hrr]
      simp
    have hres := ih f pool.advanceCursor k (post ++ [p]) hc' hrot'
      (fun x hx => hpre x (List.mem_cons_of_mem _ hx)) hk (by
        simp only [List.length_cons] at hfuel; omega)
    rw [getNextKeyLoop]
    simp only [hkey]
    rw [if_pos (hpre p (List.mem_cons_self p pre')), hres]
    have harith : (pool.advanceCursor.currentIndex + pre'.length + 1) %
        pool.advanceCursor.keys.length =
        (pool.currentIndex + (p :: pre').length + 1) % pool.keys.length := by
      show ((pool.currentIndex + 1) % pool.keys.length + pre'.length + 1) %
          pool.keys.length = _
      rw [Nat.add_assoc ((pool.currentIndex + 1) % pool.keys.length),
        Nat.mod_add_mod]
      congr 1
      simp only [List.length_cons]
      omega
    rw [harith]
    rfl

/-- Single-call characterisation of `getNextKey`: when the available keys of
the rotated key list start with `k`, the call returns `k`, the keys and the
exhausted set are unchanged, the cursor stays in range, and the available keys
of the new rotation are the old ones rotated one step past `k`. -/
theorem getNextKey_spec (pool : ApiKeyPool) (k : String) (rest : List String)
    (hc : pool.currentIndex < pool.keys.length)
    (hfilter : (pool.keys.rotate pool.currentIndex).filter
        (fun key => !(pool.isKeyExhausted key)) = k :: rest) :
    ∃ pool', getNextKey pool = Except.ok (k, pool') ∧
      pool'.keys = pool.keys ∧ pool'.exhaustedKeys = pool.exhaustedKeys ∧
      pool'.currentIndex < pool'.keys.length ∧
      (pool'.keys.rotate pool'.currentIndex).filter
          (fun key => !(pool'.isKeyExhausted key)) = rest ++ [k] := by
  have hN : 0 < pool.keys.length := Nat.lt_of_le_of_lt (Nat.zero_le _) hc
  obtain ⟨pre, post, hdecomp, hpre, hkavail, hpost⟩ :=
    List.filter_eq_cons_iff.mp hfilter
  have hpre' : ∀ x ∈ pre, pool.isKeyExhausted x = true := by
    intro x hx
    have := hpre x hx
    simpa using this
  have hk : pool.isKeyExhausted k = false := by simpa using hkavail
  have hlen : pre.length < pool.keys.length := by
    have := congrArg List.length hdecomp
    simp only [List.length_rotate, List.length_append, List.length_cons] at this
    omega
  have hloop := getNextKeyLoop_spec pre pool.keys.length pool k post hc hdecomp
    hpre' hk hlen
  have havail : pool.availableKeys.length = rest.length + 1 := by
    have hperm : pool.availableKeys.Perm
        ((pool.keys.rotate pool.currentIndex).filter
          (fun key => !(pool.isKeyExhausted key))) :=
      (List.Perm.filter _ (List.rotate_perm _ _)).symm
    rw [hperm.length_eq, hfilter, List.length_cons]
  refine ⟨({ pool with currentIndex := (pool.currentIndex + pre.length + 1) %
      pool.keys.length } : ApiKeyPool).recordUse k, ?_, rfl, rfl,
    Nat.mod_lt _ hN, ?_⟩
  · rw [getNextKey, if_neg (by omega), hloop]
  · show (pool.keys.rotate ((pool.currentIndex + pre.length + 1) %
        pool.keys.length)).filter (fun key => !(pool.isKeyExhausted key)) =
      rest ++ [k]
    have hsplit : pool.currentIndex + pre.length + 1 =
        pool.currentIndex + (pre.length + 1) := by omega
    rw [List.rotate_mod, hsplit, ← List.rotate_rotate, hdecomp,
      List.rotate_eq_drop_append_take (by
        simp only [List.length_append, List.length_cons]; omega)]
    have hdrop : (pre ++ k :: post).drop (pre.length + 1) = post := by
      rw [← Nat.add_zero pre.length, Nat.add_assoc, Nat.zero_add,
        List.drop_append, List.drop_one, List.tail_cons]
    have htake : (pre ++ k :: post).take (pre.length + 1) = pre ++ [k] := by
      rw [← Nat.add_zero pre.length, Nat.add_assoc, Nat.zero_add,
        List.take_append]
      rfl
    rw [hdrop, htake, List.filter_append, List.filter_append, hpost]
    have hprefilter : pre.filter (fun key => !(pool.isKeyExhausted key)) = [] := by
      rw [List.filter_eq_nil_iff]
      intro x hx
      simp [hpre' x hx]
    rw [hprefilter]
    simp [hkavail]

/-- Iterated characterisation: as long as at most the number of available
keys is requested, successive `getNextKey` calls return a prefix of the
available keys of the rotation under the cursor. -/
theorem iterateGetNextKey_take (m : Nat) :
    ∀ (pool : ApiKeyPool),
    pool.currentIndex < pool.keys.length →
    m ≤ ((pool.keys.rotate pool.currentIndex).filter
        (fun key => !(pool.isKeyExhausted key))).length →
    iterateGetNextKey m pool =
      ((pool.keys.rotate pool.currentIndex).filter
        (fun key => !(pool.isKeyExhausted key))).take m := by
  induction m with
  | zero => intro pool _ _; simp [iterateGetNextKey]
  | succ m ih =>
    intro pool hc hm
    cases hfil : (pool.keys.rotate pool.currentIndex).filter
        (fun key => !(pool.isKeyExhausted key)) with
    | nil => rw [hfil] at hm; simp at hm
    | cons k rest =>
      obtain ⟨pool', hok, _, _, hc', hfil'⟩ := getNextKey_spec pool k rest hc hfil
      have hm' : m ≤ rest.length := by
        rw [hfil] at hm
        simp only [List.length_cons] at hm
        omega
      simp only [iterateGetNextKey, hok]
      rw [ih pool' hc' (by rw [hfil']; simp; omega), hfil']
      rw [List.take_succ_cons, List.take_append_eq_append_take,
        Nat.sub_eq_zero_of_le hm', List.take_zero, List.append_nil]

/-- C5.  Starting from any in-range cursor position, the first
`availableKeys.length` calls of `getNextKey` return a permutation of the
available (non-exhausted) keys — every non-exhausted key is returned exactly
once before any key repeats (without duplicates whenever the configured keys
are distinct) — and `getNextKey` fails precisely when every key is marked
exhausted. -/
theorem getNextKey_roundrobin (pool : ApiKeyPool)
    (hc : pool.currentIndex < pool.keys.length) :
    (iterateGetNextKey pool.availableKeys.length pool).Perm pool.availableKeys ∧
    (pool.keys.Nodup →
      (iterateGetNextKey pool.availableKeys.length pool).Nodup) ∧
    ((∃ e, getNextKey pool = Except.error e) ↔ pool.availableKeys = []) := by
  have hperm : ((pool.keys.rotate pool.currentIndex).filter
      (fun key => !(pool.isKeyExhausted key))).Perm pool.availableKeys :=
    List.Perm.filter _ (List.rotate_perm _ _)
  have hlen : pool.availableKeys.length =
      ((pool.keys.rotate pool.currentIndex).filter
        (fun key => !(pool.isKeyExhausted key))).length :=
    hperm.length_eq.symm
  have hiter : iterateGetNextKey pool.availableKeys.length pool =
      (pool.keys.rotate pool.currentIndex).filter
        (fun key => !(pool.isKeyExhausted key)) := by
    rw [iterateGetNextKey_take _ pool hc (le_of_eq hlen), hlen,
      List.take_length]
  refine ⟨hiter ▸ hperm, ?_, ?_, ?_⟩
  · intro hnodup
    rw [hiter]
    exact List.Nodup.filter _ ((List.rotate_perm _ _).nodup_iff.mpr hnodup)
  · rintro ⟨e, he⟩
    by_contra hne
    cases hfil : (pool.keys.rotate pool.currentIndex).filter
        (fun key => !(pool.isKeyExhausted key)) with
    | nil =>
      have : pool.availableKeys.length = 0 := by rw [hlen, hfil]; rfl
      exact hne (List.length_eq_zero.mp this)
    | cons k rest =>
      obtain ⟨pool', hok, _⟩ := getNextKey_spec pool k rest hc hfil
      rw [hok] at he
      exact Except.noConfusion he
  · intro hempty
    refine ⟨"Все API ключи исчерпали свои квоты", ?_⟩
    rw [getNextKey, if_pos (by rw [hempty]; rfl)]

/-- Concrete three-key pool with one exhausted key and the cursor at 1. -/
def samplePool : ApiKeyPool :=
  { keys := ["k1", "k2", "k3"], currentIndex := 1,
    usageCount := fun _ => 0, exhaustedKeys := ["k2"] }

/-- Witness for C5: the round-robin theorem applied to `samplePool`. -/
theorem getNextKey_roundrobin_witness :
    (iterateGetNextKey samplePool.availableKeys.length samplePool).Perm
      samplePool.availableKeys :=
  (getNextKey_roundrobin samplePool (by decide)).1

/-! ## Token-based chunking (`createChunksWithTokens`) -/

/-- Chunk record `{id, paragraphs, tokenCount, hasOverlap}`. -/
structure Chunk where
  id : String
  paragraphs : List Paragraph
  tokenCount : Nat
  hasOverlap : Bool
deriving Repr, DecidableEq

/-- Embedding of `countTokens`: `Math.ceil(text.length / 4)`. -/
def countTokens (text : String) : Nat :=
  (text.length + 3) / 4

/-- Sentences of a text: split on `[.!?]+` and keep the pieces whose trimmed
length is positive (splitting on the single characters yields the same kept
pieces as splitting on maximal runs, since the extra pieces are empty). -/
def sentencesOf (text : String) : List String :=
  (jsSplit (fun c => c = '.' || c = '!' || c = '?') text).filter
    fun s => 0 < (jsTrim s).length

/-- Embedding of `Array.prototype.slice(-count)` (for `count = 0` JavaScript
returns the whole array). -/
def jsSliceLast (l : List String) (count : Nat) : List String :=
  if count = 0 then l else l.drop (l.length - count)

/-- Embedding of `getLastSentences`. -/
def getLastSentences (text : String) (count : Nat) : List String :=
  (jsSliceLast (sentencesOf text) count).map fun s => jsTrim s ++ "."

/-- Embedding of `Array.prototype.join(' ')`. -/
def joinSpace : List String → String
  | [] => ""
  | [s] => s
  | s :: rest => s ++ " " ++ joinSpace rest

/-- Embedding of `createOverlapText`. -/
def createOverlapText (sentences : List String) : String :=
  if sentences.length = 0 then ""
  else "[КОНТЕКСТ ИЗ ПРЕДЫДУЩЕГО ЧАНКА]: " ++ joinSpace sentences

/-- Embedding of `currentChunk[currentChunk.length - 1]?.text || ''`. -/
def lastParagraphText (l : List Paragraph) : String :=
  ((l.getLast?).map (·.text)).getD ""

/-- Fixed cap on the number of paragraphs per chunk. -/
def maxParagraphsPerChunk : Nat := 6

/-- The paragraph loop of `createChunksWithTokens`, threading the accumulated
chunks, the open chunk, its token count, and the sentences captured at the
last chunk close.  A chunk closed inside the loop is pushed with
`hasOverlap := false`; the final chunk is pushed with
`hasOverlap := previousChunkSentences.length > 0`. -/
def createChunksLoop (maxTokens overlapSentences : Nat) :
    List Paragraph → List Chunk → List Paragraph → Nat → List String → List Chunk
  | [], chunks, currentChunk, currentTokenCount, previousChunkSentences =>
    if 0 < currentChunk.length then
      chunks ++ [{ id := "chunk_" ++ toString (chunks.length + 1),
                   paragraphs := currentChunk,
                   tokenCount := currentTokenCount,
                   hasOverlap := 0 < previousChunkSentences.length }]
    else chunks
  | paragraph :: rest, chunks, currentChunk, currentTokenCount,
      previousChunkSentences =>
    let paragraphTokens := countTokens paragraph.text
    let overlapTokens := if 0 < previousChunkSentences.length then
        countTokens (createOverlapText previousChunkSentences) else 0
    if (decide (maxTokens < currentTokenCount + paragraphTokens + overlapTokens) ||
        decide (maxParagraphsPerChunk ≤ currentChunk.length)) &&
        decide (0 < currentChunk.length) then
      let newPrev := getLastSentences (lastParagraphText currentChunk)
        overlapSentences
      let chunksPushed := chunks ++
        [{ id := "chunk_" ++ toString (chunks.length + 1),
           paragraphs := currentChunk,
           tokenCount := currentTokenCount,
           hasOverlap := false }]
      if 0 < newPrev.length then
        let overlapText := createOverlapText newPrev
        createChunksLoop maxTokens overlapSentences rest chunksPushed
          ([⟨"overlap_" ++ toString (chunksPushed.length + 1), overlapText⟩] ++
            [paragraph])
          (countTokens overlapText + paragraphTokens) newPrev
      else
        createChunksLoop maxTokens overlapSentences rest chunksPushed
          [paragraph] paragraphTokens newPrev
    else
      createChunksLoop maxTokens overlapSentences rest chunks
        (currentChunk ++ [paragraph]) (currentTokenCount + paragraphTokens)
        previousChunkSentences

/-- Embedding of `createChunksWithTokens`. -/
def createChunksWithTokens (paragraphs : List Paragraph)
    (maxTokensPerChunk overlapSentences : Nat) : List Chunk :=
  createChunksLoop maxTokensPerChunk overlapSentences paragraphs [] [] 0 []

/-- Is this a synthetic overlap paragraph (id prefixed `overlap_`)? -/
def isOverlapPara (p : Paragraph) : Bool :=
  listStartsWith p.id.data "overlap_".data

/-- Real (non-synthetic) paragraphs of a chunk list, in order. -/
def realParagraphs (cs : List Chunk) : List Paragraph :=
  ((cs.map (·.paragraphs)).flatten).filter fun p => !(isOverlapPara p)

/-- Prefixing is reflexive up to a tail. -/
theorem listStartsWith_append (a b : List Char) :
    listStartsWith (a ++ b) a = true := by
  induction a with
  | nil => cases b <;> rfl
  | cons c cs ih => simp [listStartsWith, ih]

/-- A synthetic overlap paragraph is recognised by `isOverlapPara`. -/
theorem isOverlapPara_overlap (t text : String) :
    isOverlapPara ⟨"overlap_" ++ t, text⟩ = true := by
  show listStartsWith ("overlap_".data ++ t.data) "overlap_".data = true
  exact listStartsWith_append _ _

/-- `realParagraphs` distributes over chunk-list concatenation. -/
theorem realParagraphs_append (a b : List Chunk) :
    realParagraphs (a ++ b) = realParagraphs a ++ realParagraphs b := by
  simp [realParagraphs, List.filter_append]

/-- Loop invariant for C7: the real paragraphs of the final chunk list are
the real paragraphs already emitted, then the non-synthetic part of the open
chunk, then the paragraphs still to process. -/
theorem createChunksLoop_real (maxTokens overlapSentences : Nat) :
    ∀ (rest : List Paragraph) (chunks : List Chunk)
      (currentChunk : List Paragraph) (tok : Nat) (prev : List String),
    (∀ p ∈ rest, isOverlapPara p = false) →
    realParagraphs (createChunksLoop maxTokens overlapSentences rest chunks
        currentChunk tok prev) =
      realParagraphs chunks ++
        (currentChunk.filter fun p => !(isOverlapPara p)) ++ rest := by
  intro rest
  induction rest with
  | nil =>
    intro chunks currentChunk tok prev _
    rw [createChunksLoop]
    by_cases h : 0 < currentChunk.length
    · rw [if_pos h, realParagraphs_append]
      simp [realParagraphs]
    · rw [if_neg h]
      have : currentChunk = [] := List.length_eq_zero.mp (by omega)
      simp [this]
  | cons paragraph rest ih =>
    intro chunks currentChunk tok prev hrest
    have hpar : isOverlapPara paragraph = false :=
      hrest paragraph (List.mem_cons_self _ _)
    have hrest' : ∀ p ∈ rest, isOverlapPara p = false := fun p hp =>
      hrest p (List.mem_cons_of_mem _ hp)
    rw [createChunksLoop]
    simp only []
    by_cases hclose : ((decide (maxTokens < tok + countTokens paragraph.text +
        (if 0 < prev.length then
          countTokens (createOverlapText prev) else 0)) ||
        decide (maxParagraphsPerChunk ≤ currentChunk.length)) &&
        decide (0 < currentChunk.length)) = true
    · rw [if_pos hclose]
      by_cases hnew : 0 < (getLastSentences (lastParagraphText currentChunk)
          overlapSentences).length
      · rw [if_pos hnew, ih _ _ _ _ hrest', realParagraphs_append]
        simp [realParagraphs, List.filter_append, hpar, isOverlapPara_overlap]
      · rw [if_neg hnew, ih _ _ _ _ hrest', realParagraphs_append]
        simp [realParagraphs, List.filter_append, hpar]
    · rw [if_neg hclose, ih _ _ _ _ hrest']
      simp [List.filter_append, hpar]

/-- C7.  For any paragraph list whose ids do not use the synthetic
`overlap_` prefix (the segmenter emits `p1..pN`), concatenating the
paragraphs of the produced chunks in order and dropping the synthetic
overlap paragraphs reconstructs exactly the input sequence — nothing is
duplicated, dropped or reordered. -/
theorem createChunksWithTokens_partition (paragraphs : List Paragraph)
    (maxTokensPerChunk overlapSentences : Nat)
    (hids : ∀ p ∈ paragraphs, isOverlapPara p = false) :
    realParagraphs
        (createChunksWithTokens paragraphs maxTokensPerChunk overlapSentences) =
      paragraphs := by
  rw [createChunksWithTokens,
    createChunksLoop_real maxTokensPerChunk overlapSentences paragraphs [] [] 0 []
      hids]
  rfl

/-- Three one-sentence paragraphs that produce three chunks under a token
budget of 1. -/
def threeParagraphs : List Paragraph :=
  [⟨"p1", "aaaa."⟩, ⟨"p2", "bbbb."⟩, ⟨"p3", "cccc."⟩]

/-- Witness for C7: the round-trip theorem applied to the three-paragraph
input (which produces three chunks with overlap prefixes). -/
theorem createChunksWithTokens_partition_witness :
    realParagraphs (createChunksWithTokens threeParagraphs 1 2) =
      threeParagraphs :=
  createChunksWithTokens_partition threeParagraphs 1 2 (by decide)

/-- C8 evaluation at the failing input: of the three produced chunks, the
second begins with the synthetic overlap paragraph `overlap_2` and yet has
`hasOverlap = false` — only the final chunk's flag reflects its overlap
prefix, because every chunk closed inside the loop is pushed with a
hard-coded `hasOverlap: false`. -/
theorem hasOverlap_false_on_overlap_chunk :
    ((createChunksWithTokens threeParagraphs 1 2).map fun c => c.hasOverlap) =
      [false, false, true] ∧
    ((createChunksWithTokens threeParagraphs 1 2).map
        fun c => c.paragraphs.map (·.id)) =
      [["p1"], ["overlap_2", "p2"], ["overlap_3", "p3"]] := by
  constructor
  · rfl
  · rfl

/-! ## Parallel scheduler (`processChunksInParallel`)

Chunk analysis is delegated to an oracle `analyze : Chunk → Except String α`
(one outcome per chunk — in the source, `analyzeChunk` after its internal
retry budget either resolves with a value or rejects).  A batch's
`Promise.allSettled` is the list of the outcomes of its chunks; the
collection loop then either stores every result or throws on the first
rejection.  The possible divergence of the `for` loop when the batch size is
zero is modelled with explicit fuel (`none` = the loop never finished). -/

/-- Outcomes of one batch (`batch.map` in the source), with the global chunk
index and the per-chunk error wrapping (`Чанк N: ...`). -/
def settleBatch {α : Type} (analyze : Chunk → Except String α) :
    List (Nat × Chunk) → List (Nat × Except String α)
  | [] => []
  | ic :: rest =>
    (ic.1, match analyze ic.2 with
      | Except.ok r => Except.ok r
      | Except.error e =>
        Except.error ("Чанк " ++ toString (ic.1 + 1) ++ ": " ++ e)) ::
      settleBatch analyze rest

/-- The `batchResults.forEach` collection: store results in order, throw on
the first rejected entry (`Не удалось обработать чанк N: ...`). -/
def collectBatch {α : Type} : List (Nat × Except String α) →
    Except String (List α)
  | [] => Except.ok []
  | (_, Except.ok r) :: rest => (collectBatch rest).map (r :: ·)
  | (i, Except.error e) :: _ =>
    Except.error ("Не удалось обработать чанк " ++ toString (i + 1) ++ ": " ++ e)

/-- The batch loop (`for i = 0; i < chunks.length; i += batchSize`), with
fuel: each step settles and collects one batch; `none` means the fuel was
exhausted before the chunk list (which happens exactly when the step size is
zero, the source's infinite loop). -/
def processChunksLoop {α : Type} (analyze : Chunk → Except String α)
    (batchSize : Nat) : Nat → List (Nat × Chunk) →
    Option (Except String (List α))
  | _, [] => some (Except.ok [])
  | 0, _ :: _ => none
  | fuel + 1, nc :: rest0 =>
    let numbered := nc :: rest0
    let batch := numbered.take batchSize
    match collectBatch (settleBatch analyze batch) with
    | Except.error e => some (Except.error e)
    | Except.ok rs =>
      match processChunksLoop analyze batchSize fuel (numbered.drop batchSize) with
      | none => none
      | some (Except.error e) => some (Except.error e)
      | some (Except.ok rest) => some (Except.ok (rs ++ rest))

/-- Embedding of `processChunksInParallel` over the analysis oracle; the
batch size is `Math.min(8, keyPool.getAvailableKeyCount())` in the source and
is kept as a parameter. -/
def processChunksInParallel {α : Type} (analyze : Chunk → Except String α)
    (chunks : List Chunk) (batchSize : Nat) :
    Option (Except String (List α)) :=
  processChunksLoop analyze batchSize chunks.length chunks.enum

/-- Reference sequential analysis: every chunk's result in order, or the
first failure. -/
def analyzeAll {α : Type} (analyze : Chunk → Except String α) :
    List Chunk → Except String (List α)
  | [] => Except.ok []
  | c :: cs =>
    match analyze c with
    | Except.error e => Except.error e
    | Except.ok r =>
      match analyzeAll analyze cs with
      | Except.error e => Except.error e
      | Except.ok rs => Except.ok (r :: rs)

/-- Two fallible results agree when they have the same constructor and the
same success value. -/
def exceptAgrees {α : Type} : Except String α → Except String α → Prop
  | Except.ok a, Except.ok b => a = b
  | Except.error _, Except.error _ => True
  | _, _ => False

/-- `analyzeAll` over an appended list. -/
theorem analyzeAll_append {α : Type} (analyze : Chunk → Except String α)
    (l₁ l₂ : List Chunk) :
    analyzeAll analyze (l₁ ++ l₂) =
      match analyzeAll analyze l₁ with
      | Except.error e => Except.error e
      | Except.ok a =>
        match analyzeAll analyze l₂ with
        | Except.error e => Except.error e
        | Except.ok b => Except.ok (a ++ b) := by
  induction l₁ with
  | nil => cases h : analyzeAll analyze l₂ <;> simp [analyzeAll, h]
  | cons c cs ih =>
    rw [List.cons_append, analyzeAll, analyzeAll, ih]
    cases h1 : analyze c <;>
      [skip; cases h2 : analyzeAll analyze cs <;>
        [skip; cases h3 : analyzeAll analyze l₂]] <;> rfl

/-- Collecting a settled batch agrees with sequentially analysing its
chunks. -/
theorem collectBatch_agrees {α : Type} (analyze : Chunk → Except String α) :
    ∀ batch : List (Nat × Chunk),
      exceptAgrees (collectBatch (settleBatch analyze batch))
        (analyzeAll analyze (batch.map Prod.snd)) := by
  intro batch
  induction batch with
  | nil => exact rfl
  | cons ic rest ih =>
    obtain ⟨i, c⟩ := ic
    cases h1 : analyze c with
    | error e =>
      show exceptAgrees (collectBatch (settleBatch analyze ((i, c) :: rest)))
        (analyzeAll analyze (((i, c) :: rest).map Prod.snd))
      rw [settleBatch, List.map_cons, analyzeAll, h1]
      exact trivial
    | ok r =>
      show exceptAgrees (collectBatch (settleBatch analyze ((i, c) :: rest)))
        (analyzeAll analyze (((i, c) :: rest).map Prod.snd))
      rw [settleBatch, List.map_cons, analyzeAll, h1]
      show exceptAgrees ((collectBatch (settleBatch analyze rest)).map (r :: ·)) _
      cases h2 : collectBatch (settleBatch analyze rest) with
      | error e =>
        rw [h2] at ih
        cases h3 : analyzeAll analyze (rest.map Prod.snd) with
        | error e2 => exact trivial
        | ok rs => rw [h3] at ih; exact False.elim ih
      | ok rs =>
        rw [h2] at ih
        cases h3 : analyzeAll analyze (rest.map Prod.snd) with
        | error e2 => rw [h3] at ih; exact False.elim ih
        | ok rs2 =>
          rw [h3] at ih
          have hrs : rs = rs2 := ih
          subst hrs
          exact congrArg (r :: ·) ih

/-- Loop correctness: with a positive batch size and enough fuel, the batch
loop terminates and agrees with the sequential analysis of the remaining
chunks. -/
theorem processChunksLoop_agrees {α : Type} (analyze : Chunk → Except String α)
    (batchSize : Nat) (hbs : 1 ≤ batchSize) :
    ∀ (fuel : Nat) (numbered : List (Nat × Chunk)),
      numbered.length ≤ fuel →
      ∃ result, processChunksLoop analyze batchSize fuel numbered = some result ∧
        exceptAgrees result (analyzeAll analyze (numbered.map Prod.snd)) := by
  intro fuel
  induction fuel with
  | zero =>
    intro numbered hlen
    have : numbered = [] := List.length_eq_zero.mp (by omega)
    subst this
    exact ⟨Except.ok [], rfl, rfl⟩
  | succ fuel ih =>
    intro numbered hlen
    cases numbered with
    | nil => exact ⟨Except.ok [], rfl, rfl⟩
    | cons nc rest0 =>
      rw [processChunksLoop]
      have hsplit : (nc :: rest0) =
          (nc :: rest0).take batchSize ++ (nc :: rest0).drop batchSize :=
        (List.take_append_drop _ _).symm
      have hagree := collectBatch_agrees analyze ((nc :: rest0).take batchSize)
      have hall : analyzeAll analyze ((nc :: rest0).map Prod.snd) =
          match analyzeAll analyze (((nc :: rest0).take batchSize).map Prod.snd) with
          | Except.error e => Except.error e
          | Except.ok a =>
            match analyzeAll analyze
                (((nc :: rest0).drop batchSize).map Prod.snd) with
            | Except.error e => Except.error e
            | Except.ok b => Except.ok (a ++ b) := by
        conv_lhs => rw [hsplit]
        rw [List.map_append, analyzeAll_append]
      cases hcol : collectBatch (settleBatch analyze ((nc :: rest0).take batchSize)) with
      | error e =>
        refine ⟨Except.error e, rfl, ?_⟩
        rw [hcol] at hagree
        rw [hall]
        cases hb : analyzeAll analyze (((nc :: rest0).take batchSize).map Prod.snd) with
        | error e2 => exact trivial
        | ok a => rw [hb] at hagree; exact absurd hagree (by simp [exceptAgrees])
      | ok rs =>
        rw [hcol] at hagree
        have hdroplen : ((nc :: rest0).drop batchSize).length ≤ fuel := by
          rw [List.length_drop]
          simp only [List.length_cons] at hlen ⊢
          omega
        obtain ⟨result2, hres2, hagree2⟩ := ih ((nc :: rest0).drop batchSize) hdroplen
        rw [hres2]
        cases hb : analyzeAll analyze (((nc :: rest0).take batchSize).map Prod.snd) with
        | error e2 =>
          rw [hb] at hagree
          exact absurd hagree (by simp [exceptAgrees])
        | ok a =>
          rw [hb] at hagree
          have hrs : rs = a := hagree
          subst hrs
          cases result2 with
          | error e2 =>
            refine ⟨Except.error e2, rfl, ?_⟩
            rw [hall, hb]
            cases hc : analyzeAll analyze (((nc :: rest0).drop batchSize).map Prod.snd) with
            | error e3 => exact trivial
            | ok b => rw [hc] at hagree2; exact absurd hagree2 (by simp [exceptAgrees])
          | ok rest_rs =>
            refine ⟨Except.ok (rs ++ rest_rs), rfl, ?_⟩
            rw [hall, hb]
            cases hc : analyzeAll analyze (((nc :: rest0).drop batchSize).map Prod.snd) with
            | error e3 => rw [hc] at hagree2; exact absurd hagree2 (by simp [exceptAgrees])
            | ok b =>
              rw [hc] at hagree2
              have : rest_rs = b := hagree2
              subst this
              exact rfl

/-- Success of `analyzeAll` pins down every chunk's outcome. -/
theorem analyzeAll_ok {α : Type} (analyze : Chunk → Except String α) :
    ∀ (chunks : List Chunk) (rs : List α),
      analyzeAll analyze chunks = Except.ok rs →
      rs.length = chunks.length ∧
        ∀ i (hi : i < chunks.length) (hi2 : i < rs.length),
          analyze (chunks.get ⟨i, hi⟩) = Except.ok (rs.get ⟨i, hi2⟩) := by
  intro chunks
  induction chunks with
  | nil =>
    intro rs h
    cases h
    exact ⟨rfl, fun i hi => absurd hi (by simp)⟩
  | cons c cs ih =>
    intro rs h
    rw [analyzeAll] at h
    cases h1 : analyze c with
    | error e => rw [h1] at h; exact absurd h (by simp)
    | ok r =>
      rw [h1] at h
      cases h2 : analyzeAll analyze cs with
      | error e => rw [h2] at h; exact absurd h (by simp)
      | ok rs0 =>
        rw [h2] at h
        cases h
        obtain ⟨hlen, hpt⟩ := ih rs0 h2
        refine ⟨by simp [hlen], ?_⟩
        intro i hi hi2
        cases i with
        | zero => simpa using h1
        | succ j =>
          simp only [List.get_cons_succ]
          exact hpt j (by simpa using hi) (by simpa using hi2)

/-- A failing chunk makes `analyzeAll` fail. -/
theorem analyzeAll_error_of_mem {α : Type} (analyze : Chunk → Except String α) :
    ∀ (chunks : List Chunk) (c : Chunk) (e : String),
      c ∈ chunks → analyze c = Except.error e →
      ∃ e2, analyzeAll analyze chunks = Except.error e2 := by
  intro chunks
  induction chunks with
  | nil => intro c e hc; exact absurd hc (by simp)
  | cons c0 cs ih =>
    intro c e hc herr
    rw [analyzeAll]
    cases h1 : analyze c0 with
    | error e0 => exact ⟨e0, rfl⟩
    | ok r =>
      rcases List.mem_cons.mp hc with rfl | hmem
      · rw [h1] at herr; exact absurd herr (by simp)
      · obtain ⟨e2, h2⟩ := ih c e hmem herr
        rw [h2]
        exact ⟨e2, rfl⟩

/-- C2.  With a positive batch size (the source uses
`min(8, availableKeyCount)`), the parallel run terminates with a single
outcome: if it resolves, the result array has exactly one entry per chunk, in
order, each the successful analysis of its chunk; and if any chunk's analysis
fails, the whole run rejects — it never resolves with a partial result
array. -/
theorem processChunksInParallel_allOrNothing {α : Type}
    (analyze : Chunk → Except String α) (chunks : List Chunk) (batchSize : Nat)
    (hbs : 1 ≤ batchSize) :
    ∃ result, processChunksInParallel analyze chunks batchSize = some result ∧
      (∀ rs, result = Except.ok rs →
        rs.length = chunks.length ∧
          ∀ i (hi : i < chunks.length) (hi2 : i < rs.length),
            analyze (chunks.get ⟨i, hi⟩) = Except.ok (rs.get ⟨i, hi2⟩)) ∧
      (∀ c ∈ chunks, ∀ e, analyze c = Except.error e →
        ∃ e2, result = Except.error e2) := by
  obtain ⟨result, hres, hagree⟩ := processChunksLoop_agrees analyze batchSize hbs
    chunks.length chunks.enum (by rw [List.enum_length])
  have hsnd : chunks.enum.map Prod.snd = chunks := List.enum_map_snd chunks
  rw [hsnd] at hagree
  refine ⟨result, hres, ?_, ?_⟩
  · intro rs hrs
    subst hrs
    cases hall : analyzeAll analyze chunks with
    | error e => rw [hall] at hagree; exact absurd hagree (by simp [exceptAgrees])
    | ok rs2 =>
      rw [hall] at hagree
      have : rs = rs2 := hagree
      subst this
      exact analyzeAll_ok analyze chunks rs hall
  · intro c hc e herr
    obtain ⟨e2, h2⟩ := analyzeAll_error_of_mem analyze chunks c e hc herr
    rw [h2] at hagree
    cases result with
    | ok rs => exact absurd hagree (by simp [exceptAgrees])
    | error e3 => exact ⟨e3, rfl⟩

/-- Oracle for the C2 witness: a two-chunk run where the second chunk's
analysis has exhausted its retries. -/
def failingSecondChunk (c : Chunk) : Except String Nat :=
  if c.id = "chunk_2" then Except.error "retries exhausted" else Except.ok 1

/-- The two chunks of the C2 witness scenario. -/
def twoChunks : List Chunk :=
  [{ id := "chunk_1", paragraphs := [], tokenCount := 0, hasOverlap := false },
   { id := "chunk_2", paragraphs := [], tokenCount := 0, hasOverlap := false }]

/-- Witness for C2: in the two-chunk scenario with chunk 2 failing, the whole
run rejects. -/
theorem processChunksInParallel_allOrNothing_witness :
    ∃ e2, ∃ result,
      processChunksInParallel failingSecondChunk twoChunks 8 = some result ∧
      result = Except.error e2 := by
  obtain ⟨result, hres, _, hfail⟩ :=
    processChunksInParallel_allOrNothing failingSecondChunk twoChunks 8
      (by omega)
  obtain ⟨e2, he2⟩ := hfail
    { id := "chunk_2", paragraphs := [], tokenCount := 0, hasOverlap := false }
    (by decide) "retries exhausted" (by rfl)
  exact ⟨e2, result, hres, he2⟩

/-! ## JSON values and `JSON.parse`

`extractJsonFromResponse` manipulates arbitrary JSON.  JSON values are
modelled structurally; a numeric literal is kept as its lexeme (its numeric
value is never consumed by the pipeline).  `JSON.parse` is modelled by a
strict fuel-driven recursive-descent parser over the character list; the fuel
`2·length + 2` strictly dominates the number of recursive calls any parse can
make, so fuel exhaustion is unreachable and the parser agrees with the strict
JSON grammar (entire-input parse, `\uXXXX` escapes limited to non-surrogate
code points). -/

inductive Json where
  | null : Json
  | bool : Bool → Json
  | num : String → Json
  | str : String → Json
  | arr : List Json → Json
  | obj : List (String × Json) → Json
deriving Repr

/-- Whitespace accepted by the JSON grammar. -/
def isJsonWs (c : Char) : Bool :=
  c = ' ' || c = '\t' || c = '\n' || c = '\r'

/-- Skip JSON whitespace. -/
def skipJsonWs (l : List Char) : List Char :=
  l.dropWhile isJsonWs

/-- Exponent part of a JSON number (or nothing). -/
def parseExpPart (acc : List Char) (s : List Char) :
    Option (List Char × List Char) :=
  match s with
  | e :: r1 =>
    if e = 'e' || e = 'E' then
      let sgn : List Char × List Char :=
        match r1 with
        | '+' :: r => (['+'], r)
        | '-' :: r => (['-'], r)
        | _ => ([], r1)
      let ds := sgn.2.takeWhile Char.isDigit
      if ds.isEmpty then none
      else some (acc ++ e :: (sgn.1 ++ ds), sgn.2.dropWhile Char.isDigit)
    else some (acc, s)
  | [] => some (acc, [])

/-- Fraction and exponent parts of a JSON number. -/
def parseFracExp (acc : List Char) (s : List Char) :
    Option (List Char × List Char) :=
  match s with
  | '.' :: r1 =>
    let ds := r1.takeWhile Char.isDigit
    if ds.isEmpty then none
    else parseExpPart (acc ++ '.' :: ds) (r1.dropWhile Char.isDigit)
  | _ => parseExpPart acc s

/-- A JSON number: `-?(0|[1-9][0-9]*)(\.[0-9]+)?([eE][+-]?[0-9]+)?`. -/
def parseNumberChars (s : List Char) : Option (List Char × List Char) :=
  let neg : List Char × List Char :=
    match s with
    | '-' :: r => (['-'], r)
    | _ => ([], s)
  match neg.2 with
  | [] => none
  | c :: r2 =>
    if c = '0' then parseFracExp (neg.1 ++ ['0']) r2
    else if c.isDigit then
      parseFracExp (neg.1 ++ c :: r2.takeWhile Char.isDigit)
        (r2.dropWhile Char.isDigit)
    else none

/-- Is this a hexadecimal digit? -/
def isHexDigit (c : Char) : Bool :=
  c.isDigit || ('a' ≤ c && c ≤ 'f') || ('A' ≤ c && c ≤ 'F')

/-- Value of a hexadecimal digit. -/
def hexVal (c : Char) : Nat :=
  if c.isDigit then c.toNat - '0'.toNat
  else if 'a' ≤ c && c ≤ 'f' then c.toNat - 'a'.toNat + 10
  else if 'A' ≤ c && c ≤ 'F' then c.toNat - 'A'.toNat + 10
  else 0

/-- Body of a JSON string after the opening quote: characters up to the
closing quote, with the JSON escapes; raw control characters are rejected,
and `\uXXXX` escapes in the surrogate range are rejected (they do not denote
a scalar value). -/
def parseStringBody : List Char → Option (List Char × List Char)
  | [] => none
  | c :: rest =>
    if c = '"' then some ([], rest)
    else if c = '\\' then
      match rest with
      | [] => none
      | e :: r2 =>
        if e = 'u' then
          match r2 with
          | h1 :: h2 :: h3 :: h4 :: r6 =>
            if isHexDigit h1 && isHexDigit h2 && isHexDigit h3 && isHexDigit h4 then
              let n := ((hexVal h1 * 16 + hexVal h2) * 16 + hexVal h3) * 16 + hexVal h4
              if 0xD800 ≤ n && n ≤ 0xDFFF then none
              else (parseStringBody r6).map fun p => (Char.ofNat n :: p.1, p.2)
            else none
          | _ => none
        else
          let ec : Option Char :=
            if e = '"' then some '"'
            else if e = '\\' then some '\\'
            else if e = '/' then some '/'
            else if e = 'b' then some '\x08'
            else if e = 'f' then some '\x0c'
            else if e = 'n' then some '\n'
            else if e = 'r' then some '\r'
            else if e = 't' then some '\t'
            else none
          match ec with
          | none => none
          | some ch => (parseStringBody r2).map fun p => (ch :: p.1, p.2)
    else if c.toNat < 32 then none
    else (parseStringBody rest).map fun p => (c :: p.1, p.2)

/-- Parser mode: a value, the tail of an array, or the tail of an object. -/
inductive JsonParseMode where
  | value : JsonParseMode
  | arrayTail : List Json → JsonParseMode
  | objectTail : List (String × Json) → JsonParseMode

/-- Fuel-driven recursive-descent JSON parser. -/
def parseJ : Nat → JsonParseMode → List Char → Option (Json × List Char)
  | 0, _, _ => none
  | fuel + 1, JsonParseMode.value, input =>
    match skipJsonWs input with
    | [] => none
    | c :: rest =>
      if c = '"' then
        (parseStringBody rest).map fun p => (Json.str ⟨p.1⟩, p.2)
      else if c = '\x7b' then
        match skipJsonWs rest with
        | '\x7d' :: r2 => some (Json.obj [], r2)
        | _ => parseJ fuel (JsonParseMode.objectTail []) rest
      else if c = '[' then
        match skipJsonWs rest with
        | ']' :: r2 => some (Json.arr [], r2)
        | _ => parseJ fuel (JsonParseMode.arrayTail []) rest
      else if c = 't' then
        if listStartsWith rest ("rue".data) then some (Json.bool true, rest.drop 3)
        else none
      else if c = 'f' then
        if listStartsWith rest ("alse".data) then some (Json.bool false, rest.drop 4)
        else none
      else if c = 'n' then
        if listStartsWith rest ("ull".data) then some (Json.null, rest.drop 3)
        else none
      else
        (parseNumberChars (c :: rest)).map fun p => (Json.num ⟨p.1⟩, p.2)
  | fuel + 1, JsonParseMode.arrayTail acc, input =>
    match parseJ fuel JsonParseMode.value input with
    | none => none
    | some (v, rest) =>
      match skipJsonWs rest with
      | ',' :: r2 => parseJ fuel (JsonParseMode.arrayTail (acc ++ [v])) r2
      | ']' :: r2 => some (Json.arr (acc ++ [v]), r2)
      | _ => none
  | fuel + 1, JsonParseMode.objectTail acc, input =>
    match skipJsonWs input with
    | '"' :: r1 =>
      match parseStringBody r1 with
      | none => none
      | some (key, r2) =>
        match skipJsonWs r2 with
        | ':' :: r3 =>
          match parseJ fuel JsonParseMode.value r3 with
          | none => none
          | some (v, r4) =>
            match skipJsonWs r4 with
            | ',' :: r5 =>
              parseJ fuel (JsonParseMode.objectTail (acc ++ [(⟨key⟩, v)])) r5
            | '\x7d' :: r5 => some (Json.obj (acc ++ [(⟨key⟩, v)]), r5)
            | _ => none
        | _ => none
    | _ => none

/-- Embedding of `JSON.parse` (success as `some`, a thrown `SyntaxError` as
`none`): one value, then only whitespace. -/
def jsonParse (s : String) : Option Json :=
  match parseJ (2 * s.data.length + 2) JsonParseMode.value s.data with
  | some (v, rest) => if (skipJsonWs rest).isEmpty then some v else none
  | none => none

/-! ## `extractJsonFromResponse` -/

/-- Canonical empty result returned for empty/whitespace input. -/
def unknownResult : Json :=
  Json.obj [("chunkId", Json.str "unknown"), ("analysis", Json.arr [])]

/-- Degraded sentinel returned when no strategy recovers anything. -/
def failedResult : Json :=
  Json.obj [("chunkId", Json.str "failed"), ("analysis", Json.arr [])]

/-- Remainder after the first occurrence of `marker`. -/
def afterFirst (marker : List Char) : List Char → Option (List Char)
  | [] => if marker.isEmpty then some [] else none
  | s@(_ :: rest) =>
    if listStartsWith s marker then some (s.drop marker.length)
    else afterFirst marker rest

/-- Content before the first occurrence of `marker`. -/
def beforeFirst (marker : List Char) : List Char → Option (List Char)
  | [] => none
  | s@(c :: rest) =>
    if listStartsWith s marker then some []
    else (beforeFirst marker rest).map (c :: ·)

/-- Content of the first fenced block opened by `fence` and closed by
three backticks. -/
def fenceCapture (fence : List Char) (s : List Char) : Option (List Char) :=
  (afterFirst fence s).bind (beforeFirst ("```".data))

/-- Embedding of the markdown-fence stripping: the `/```json\s*([\s\S]*?)\s*```/`
capture (trimmed), else the generic triple-backtick capture, else the input
unchanged. -/
def stripFences (s : String) : String :=
  if containsStr s "```json" then
    match fenceCapture ("```json".data) s.data with
    | some inner => jsTrim ⟨inner⟩
    | none => s
  else if containsStr s "```" then
    match fenceCapture ("```".data) s.data with
    | some inner => jsTrim ⟨inner⟩
    | none => s
  else s

/-- Character cleaning: tab, no-break space, line/paragraph separators and
the `[\x00-\x1F\x7F-\x9F]` control ranges become plain spaces. -/
def cleanChar (c : Char) : Char :=
  if c = '\t' || c = '\u00A0' || c = '\u2028' || c = '\u2029' then ' '
  else if c.toNat ≤ 0x1F || (0x7F ≤ c.toNat && c.toNat ≤ 0x9F) then ' '
  else c

/-- Embedding of the control-character replacement chain. -/
def cleanControlChars (s : String) : String :=
  ⟨s.data.map cleanChar⟩

/-- Unescaped-quote scan: the count of quotes not preceded by a backslash and
the index of the last one. -/
def quoteScanAux : List Char → Option Char → Nat → Nat → Option Nat →
    Nat × Option Nat
  | [], _, _, count, lastIdx => (count, lastIdx)
  | c :: rest, prev, i, count, lastIdx =>
    if c = '"' && (match prev with | none => true | some p => p ≠ '\\') then
      quoteScanAux rest (some c) (i + 1) (count + 1) (some i)
    else quoteScanAux rest (some c) (i + 1) count lastIdx

/-- Truncated-string repair: when the number of unescaped quotes is odd, cut
at the last quote and close it. -/
def closeQuotes (s : String) : String :=
  if containsStr s "\"" then
    let scan := quoteScanAux s.data none 0 0 none
    if scan.1 % 2 = 1 then
      match scan.2 with
      | some j => ⟨s.data.take (j + 1) ++ ['"']⟩
      | none => s
    else s
  else s

/-- Bracket balancing: append the missing `]` then the missing `\x7d` (the
counters may go negative, in which case nothing is appended). -/
def closeBrackets (s : String) : String :=
  let counts := s.data.foldl (fun (p : Int × Int) c =>
    if c = '\x7b' then (p.1 + 1, p.2)
    else if c = '\x7d' then (p.1 - 1, p.2)
    else if c = '[' then (p.1, p.2 + 1)
    else if c = ']' then (p.1, p.2 - 1)
    else p) (0, 0)
  ⟨s.data ++ List.replicate counts.2.toNat ']' ++
    List.replicate counts.1.toNat '\x7d'⟩

/-- One fuelled left-to-right pass of `replace(/,\s*C/g, 'C')` for a closing
character `C`. -/
def stripCommaBeforeFuel (closer : Char) : Nat → List Char → List Char
  | 0, l => l
  | _ + 1, [] => []
  | fuel + 1, c :: rest =>
    if c = ',' then
      match rest.dropWhile jsIsWhitespace with
      | c2 :: r2 =>
        if c2 = closer then closer :: stripCommaBeforeFuel closer fuel r2
        else c :: stripCommaBeforeFuel closer fuel rest
      | [] => c :: stripCommaBeforeFuel closer fuel rest
    else c :: stripCommaBeforeFuel closer fuel rest

/-- Trailing-comma removal before `\x7d` and then before `]`. -/
def stripTrailingCommas (s : String) : String :=
  let step1 := stripCommaBeforeFuel '\x7d' s.data.length s.data
  ⟨stripCommaBeforeFuel ']' step1.length step1⟩

/-- The whole repair chain applied between the two parse attempts. -/
def repairJson (s : String) : String :=
  stripTrailingCommas (closeBrackets (closeQuotes s))

/-- Match, at this position, a literal followed by `\s*` and one of the
alternatives; the index of the alternative is returned. -/
def matchLitOptsAt (lit : List Char) (opts : List (List Char))
    (s : List Char) : Option Nat :=
  if listStartsWith s lit then
    let r1 := (s.drop lit.length).dropWhile jsIsWhitespace
    ((opts.enum).find? fun p => listStartsWith r1 p.2).map (·.1)
  else none

/-- First position where the literal-then-alternatives pattern matches. -/
def findLitOpts (lit : List Char) (opts : List (List Char)) :
    List Char → Option Nat
  | [] => none
  | s@(_ :: rest) =>
    match matchLitOptsAt lit opts s with
    | some i => some i
    | none => findLitOpts lit opts rest

/-- The contradiction-verification fallback object: `isContradiction` and
`severity` regex-extracted from the raw text, fixed explanation texts. -/
def contradictionFallback (raw : String) : Json :=
  let isContr :=
    match findLitOpts ("\"isContradiction\":".data)
        ["true".data, "false".data] raw.data with
    | some 0 => true
    | _ => false
  let severity :=
    match findLitOpts ("\"severity\":".data)
        ["\"high\"".data, "\"medium\"".data, "\"low\"".data] raw.data with
    | some 0 => "high"
    | some 1 => "medium"
    | some 2 => "low"
    | _ => "low"
  Json.obj [("isContradiction", Json.bool isContr),
            ("severity", Json.str severity),
            ("explanation",
              Json.str "Не удалось полностью проанализировать противоречие"),
            ("recommendation", Json.str "Требуется ручная проверка")]

/-- Match, at this position, `/"id":\s*"contr_\d+"/`. -/
def matchContrIdAt (s : List Char) : Bool :=
  listStartsWith s ("\"id\":".data) &&
    (let r1 := (s.drop 5).dropWhile jsIsWhitespace
     listStartsWith r1 ("\"contr_".data) &&
       (let r2 := r1.drop 7
        !(r2.takeWhile Char.isDigit).isEmpty &&
          (match r2.dropWhile Char.isDigit with
           | '"' :: _ => true
           | _ => false)))

/-- Search for `/"id":\s*"contr_\d+"/`. -/
def hasContrIdMatch : List Char → Bool
  | [] => false
  | s@(_ :: rest) => matchContrIdAt s || hasContrIdMatch rest

/-- Match, at this position, `/"chunkId":\s*"([^"]+)"/`, returning the
capture. -/
def matchChunkIdAt (s : List Char) : Option (List Char) :=
  if listStartsWith s ("\"chunkId\":".data) then
    match (s.drop 10).dropWhile jsIsWhitespace with
    | '"' :: r2 =>
      let cap := r2.takeWhile (· ≠ '"')
      match r2.dropWhile (· ≠ '"') with
      | '"' :: _ => if cap.isEmpty then none else some cap
      | _ => none
    | _ => none
  else none

/-- First `"chunkId"` capture of the raw text. -/
def chunkIdCapture : List Char → Option (List Char)
  | [] => none
  | s@(_ :: rest) =>
    match matchChunkIdAt s with
    | some cap => some cap
    | none => chunkIdCapture rest

/-- Match, at this position,
`/"id":\s*"([^"]+)",\s*"category":\s*"([^"]*)"/`, returning both captures
and the remainder after the match. -/
def matchSimpleAt (s : List Char) :
    Option (List Char × List Char × List Char) :=
  if listStartsWith s ("\"id\":".data) then
    match (s.drop 5).dropWhile jsIsWhitespace with
    | '"' :: r2 =>
      let idcap := r2.takeWhile (· ≠ '"')
      if idcap.isEmpty then none
      else
        match r2.dropWhile (· ≠ '"') with
        | '"' :: ',' :: r4 =>
          let r5 := r4.dropWhile jsIsWhitespace
          if listStartsWith r5 ("\"category\":".data) then
            match (r5.drop 11).dropWhile jsIsWhitespace with
            | '"' :: r7 =>
              let catcap := r7.takeWhile (· ≠ '"')
              match r7.dropWhile (· ≠ '"') with
              | '"' :: r9 => some (idcap, catcap, r9)
              | _ => none
            | _ => none
          else none
        | _ => none
    | _ => none
  else none

/-- Does the inside of a braced segment contain the id/category pattern? -/
def innerIdCatCheck : List Char → Bool
  | [] => false
  | s@(_ :: rest) => (matchSimpleAt s).isSome || innerIdCatCheck rest

/-- Match, at this position, one analysis object of the global pattern
`/{[^}]*"id":\s*"[^"]+",\s*"category":\s*"[^"]*"[^}]*}/g`: an opening brace,
a brace-free segment containing the id/category pattern, the closing
brace. -/
def matchAnalysisObjAt (s : List Char) : Option (List Char × List Char) :=
  match s with
  | '\x7b' :: rest =>
    let seg := rest.takeWhile (· ≠ '\x7d')
    match rest.dropWhile (· ≠ '\x7d') with
    | _ :: r2 =>
      if innerIdCatCheck seg then some ('\x7b' :: (seg ++ ['\x7d']), r2)
      else none
    | [] => none
  | _ => none

/-- All matches of the analysis-object pattern, in order. -/
def scanAnalysisObjects : Nat → List Char → List (List Char)
  | 0, _ => []
  | _ + 1, [] => []
  | fuel + 1, s@(_ :: rest) =>
    match matchAnalysisObjAt s with
    | some (m, r2) => m :: scanAnalysisObjects fuel r2
    | none => scanAnalysisObjects fuel rest

/-- All matches of the simple id/category pattern, in order. -/
def scanSimpleObjects : Nat → List Char → List (List Char × List Char)
  | 0, _ => []
  | _ + 1, [] => []
  | fuel + 1, s@(_ :: rest) =>
    match matchSimpleAt s with
    | some (idc, catc, r9) => (idc, catc) :: scanSimpleObjects fuel r9
    | none => scanSimpleObjects fuel rest

/-- Match, at this position, one object of `/{[^}]*"chunkId"[^}]*}/g`. -/
def matchChunkObjAt (s : List Char) : Option (List Char × List Char) :=
  match s with
  | '\x7b' :: rest =>
    let seg := rest.takeWhile (· ≠ '\x7d')
    match rest.dropWhile (· ≠ '\x7d') with
    | _ :: r2 =>
      if listContains seg ("\"chunkId\"".data) then
        some ('\x7b' :: (seg ++ ['\x7d']), r2)
      else none
    | [] => none
  | _ => none

/-- All matches of the `chunkId`-object pattern, in order. -/
def scanChunkObjects : Nat → List Char → List (List Char)
  | 0, _ => []
  | _ + 1, [] => []
  | fuel + 1, s@(_ :: rest) =>
    match matchChunkObjAt s with
    | some (m, r2) => m :: scanChunkObjects fuel r2
    | none => scanChunkObjects fuel rest

/-- Simplified analysis object built from the simple pattern's captures
(`category: match[2] || null` — the empty capture becomes `null`). -/
def mkSimpleItem (p : List Char × List Char) : Json :=
  Json.obj [("id", Json.str ⟨p.1⟩),
            ("category", if p.2.isEmpty then Json.null else Json.str ⟨p.2⟩),
            ("comment", Json.null),
            ("recommendation", Json.null)]

/-- Last-chance partial recovery: each `/{[^}]*"chunkId"[^}]*}/g` match is
re-parsed with `', "analysis": []\x7d'` appended; the first success is
returned, else the failed sentinel. -/
def partialChunkIdFallback (raw : String) : Json :=
  match (scanChunkObjects raw.data.length raw.data).findSome?
      (fun m => jsonParse ⟨m ++ (", \"analysis\": []\x7d".data)⟩) with
  | some v => v
  | none => failedResult

/-- The `"chunkId"`/`"analysis"` recovery: whole analysis objects one at a
time (each individually parsed, failures skipped), then the simplified
id/category pairs, then the last-chance partial recovery. -/
def chunkRecovery (raw : String) : Json :=
  if containsStr raw "\"chunkId\"" && containsStr raw "\"analysis\"" then
    if !((scanAnalysisObjects raw.data.length raw.data).filterMap
        (fun m => jsonParse ⟨m⟩)).isEmpty then
      Json.obj [("chunkId",
                  Json.str ⟨(chunkIdCapture raw.data).getD ("unknown".data)⟩),
                ("analysis",
                  Json.arr ((scanAnalysisObjects raw.data.length raw.data).filterMap
                    fun m => jsonParse ⟨m⟩))]
    else if !(scanSimpleObjects raw.data.length raw.data).isEmpty then
      Json.obj [("chunkId",
                  Json.str ⟨(chunkIdCapture raw.data).getD ("unknown".data)⟩),
                ("analysis",
                  Json.arr ((scanSimpleObjects raw.data.length raw.data).map
                    mkSimpleItem))]
    else partialChunkIdFallback raw
  else partialChunkIdFallback raw

/-- Domain-specific recovery chain applied to the RAW response once both
parse attempts failed. -/
def recoverDomain (raw : String) : Json :=
  if containsStr raw "isContradiction" then contradictionFallback raw
  else if containsStr raw "contradictions" && hasContrIdMatch raw.data then
    Json.obj [("contradictions", Json.arr [])]
  else chunkRecovery raw

/-- Embedding of `extractJsonFromResponse`.  The function is total by
construction — every control path of the source ends in a `return`, which is
the claim's never-throws guarantee. -/
def extractJsonFromResponse (raw : String) : Json :=
  if raw = "" || (jsTrim raw).length = 0 then unknownResult
  else
    match jsonParse (cleanControlChars (stripFences (jsTrim raw))) with
    | some v => v
    | none =>
      match jsonParse (repairJson (cleanControlChars (stripFences (jsTrim raw)))) with
      | some v => v
      | none => recoverDomain raw

/-- JSON of a chunk analysis truncated in the middle of the paragraph
array. -/
def truncatedMidArray : String :=
  "\x7b\"chunkId\": \"c1\", \"analysis\": [\x7b\"id\": \"p1\", \"category\": \"risk\"\x7d"

/-- JSON of a chunk analysis truncated in the middle of a string. -/
def truncatedMidString : String :=
  "\x7b\"chunkId\": \"chunk_7\", \"analysis\": [\x7b\"id\": \"p1\", \"cat"

/-- C1.  `extractJsonFromResponse` is total by construction (it never
throws: every control path returns a value); empty or whitespace-only input
yields the canonical `\x7bchunkId: "unknown", analysis: []\x7d` shape; when
both parse attempts and every recovery strategy fail it returns the
`\x7bchunkId: "failed", analysis: []\x7d` sentinel; and on truncated JSON it
still returns a structured value — a chunk analysis truncated mid-array is
repaired to the full object, one truncated mid-string degrades to the
sentinel. -/
theorem extractJson_never_fails :
    (∀ raw : String, (jsTrim raw).length = 0 →
      extractJsonFromResponse raw = unknownResult) ∧
    (∀ raw : String, (jsTrim raw).length ≠ 0 →
      jsonParse (cleanControlChars (stripFences (jsTrim raw))) = none →
      jsonParse (repairJson (cleanControlChars (stripFences (jsTrim raw)))) = none →
      containsStr raw "isContradiction" = false →
      (containsStr raw "contradictions" && hasContrIdMatch raw.data) = false →
      ((containsStr raw "\"chunkId\"" && containsStr raw "\"analysis\"") = false ∨
        (((scanAnalysisObjects raw.data.length raw.data).filterMap
            (fun m => jsonParse ⟨m⟩)) = [] ∧
          scanSimpleObjects raw.data.length raw.data = [])) →
      (scanChunkObjects raw.data.length raw.data).findSome?
          (fun m => jsonParse ⟨m ++ (", \"analysis\": []\x7d".data)⟩) = none →
      extractJsonFromResponse raw = failedResult) ∧
    extractJsonFromResponse truncatedMidArray =
      Json.obj [("chunkId", Json.str "c1"),
                ("analysis", Json.arr [Json.obj
                  [("id", Json.str "p1"), ("category", Json.str "risk")]])] ∧
    extractJsonFromResponse truncatedMidString = failedResult := by
  refine ⟨?_, ?_, by rfl, by rfl⟩
  · intro raw hlen
    rw [extractJsonFromResponse, if_pos (by simp [hlen])]
  · intro raw hlen hp1 hp2 hic hcm hchunk hpart
    have hraw : raw ≠ "" := fun h => hlen (by rw [h]; rfl)
    rw [extractJsonFromResponse, if_neg (by simp [hraw, hlen]), hp1, hp2,
      recoverDomain, if_neg (by simp [hic]), if_neg (by simp [hcm])]
    have hfall : partialChunkIdFallback raw = failedResult := by
      rw [partialChunkIdFallback, hpart]
    by_cases hcb : (containsStr raw "\"chunkId\"" &&
        containsStr raw "\"analysis\"") = true
    · rcases hchunk with hfalse | ⟨hobjs, hsimp⟩
      · rw [hcb] at hfalse
        exact absurd hfalse (by simp)
      · rw [chunkRecovery, if_pos hcb, hobjs, hsimp]
        simpa using hfall
    · rw [chunkRecovery, if_neg hcb]
      exact hfall

/-- Witness for C1: whitespace-only input yields the canonical empty shape,
and non-JSON prose (no strategy applies) yields the failed sentinel. -/
theorem extractJson_never_fails_witness :
    extractJsonFromResponse "   " = unknownResult ∧
    extractJsonFromResponse "просто текст без данных" = failedResult :=
  ⟨extractJson_never_fails.1 "   " (by rfl),
   extractJson_never_fails.2.1 "просто текст без данных" (by decide) (by rfl)
     (by rfl) (by rfl) (by rfl) (Or.inl (by rfl)) (by rfl)⟩

/-! ## Error classification and the contradiction finder (`findContradictions`)

Errors are JavaScript `Error` objects; a `DeepSeekApiError` additionally
carries the HTTP status and the upstream error code.  One "attempt" of
`findContradictions` (drawing a key from the pool and issuing the model call)
is abstracted as an oracle `calls : Nat → Except JsError String` indexed by
the retry count: it either yields the response content or the thrown error
(a failing `getNextKey` surfaces here as an error whose message matches no
quota/rate-limit/network/token pattern, which is exactly how the source's
`keyUsed === null` path classifies it). -/

structure JsError where
  message : String
  status : Option Nat
  code : Option String
  isDeepSeekError : Bool
deriving Repr, DecidableEq

/-- Quota-exhaustion classification of `ApiKeyPool.handleApiError` — the
`DeepSeekApiError.isQuotaExhausted` getter merged with the message fallbacks
(which test the same lower-cased substrings). -/
def isQuotaExhaustedError (e : JsError) : Bool :=
  (if e.isDeepSeekError then e.code else none) == some "insufficient_quota" ||
  containsStr (jsToLower e.message) "insufficient_quota" ||
  containsStr (jsToLower e.message) "exceeded your current quota" ||
  containsStr (jsToLower e.message) "insufficient balance" ||
  containsStr (jsToLower e.message) "out of credit"

/-- Rate-limit classification of `handleApiError` (merged with the
`isRateLimited` getter, which tests the same conditions). -/
def isRateLimitedError (e : JsError) : Bool :=
  (if e.isDeepSeekError then e.status else none) == some 429 ||
  (if e.isDeepSeekError then e.code else none) == some "rate_limit_exceeded" ||
  containsStr (jsToLower e.message) "rate limit"

/-- Return value of `handleApiError`: retry recommended for quota (with the
key marked exhausted, a pool effect modelled in the key-pool section) and for
rate limiting, not otherwise. -/
def handleApiErrorRetry (e : JsError) : Bool :=
  isQuotaExhaustedError e || isRateLimitedError e

/-- Network-error test of the `findContradictions` catch block. -/
def isNetworkError (e : JsError) : Bool :=
  containsStr (jsToLower e.message) "load failed" ||
  containsStr (jsToLower e.message) "network" ||
  containsStr (jsToLower e.message) "fetch" ||
  containsStr (jsToLower e.message) "connection"

/-- Token-error test of the `findContradictions` catch block. -/
def isTokenError (e : JsError) : Bool :=
  containsStr (jsToLower e.message) "token"

/-- The retry decision of `findContradictions`' catch block: start from
`handleApiError`'s recommendation, force a retry for network errors, and
force a retry for unhandled non-token errors with a non-empty message. -/
def shouldRetryContradictions (e : JsError) : Bool :=
  if isNetworkError e then true
  else if !(handleApiErrorRetry e) && !(isTokenError e) && !(e.message == "") then
    true
  else handleApiErrorRetry e

/-- Retry ceiling of `findContradictions`. -/
def MAX_RETRIES : Nat := 3

/-- Escalating delays (milliseconds) between retries. -/
def RETRY_DELAYS : List Nat := [2000, 5000, 10000]

/-- One entry of the `analyzedSummary` digest sent to the model. -/
structure SummaryItem where
  id : String
  text : String
  category : Option String
  comment : Option String
deriving Repr, DecidableEq

/-- The `analyzedSummary` digest: classified (truthy-category) items joined
with their paragraph texts, comments truncated to 150 characters, at most 25
entries. -/
def analyzedSummary (allAnalysis : List AnalysisItem)
    (paragraphs : List Paragraph) : List SummaryItem :=
  ((allAnalysis.filter fun item => truthyStr item.category).map fun item =>
    { id := item.id
      text := ((paragraphs.find? fun p => p.id == item.id).map (·.text)).getD ""
      category := item.category
      comment := jsOrNull (item.comment.map fun c => jsSubstringTo c 150) }).take 25

/-- Is a JSON number literal zero (its mantissa has no non-zero digit)? -/
def jsNumIsZero (lit : String) : Bool :=
  (lit.data.takeWhile fun c => c ≠ 'e' && c ≠ 'E').all
    fun c => c = '0' || c = '.' || c = '-' || c = '+'

/-- JavaScript truthiness of a JSON value. -/
def jsonTruthy : Json → Bool
  | Json.null => false
  | Json.bool b => b
  | Json.str s => !(s == "")
  | Json.num lit => !(jsNumIsZero lit)
  | Json.arr _ => true
  | Json.obj _ => true

/-- Embedding of `parsedResult.contradictions || []`. -/
def contradictionsOf (parsed : Json) : Json :=
  match parsed with
  | Json.obj fields =>
    match (fields.find? fun p => p.1 == "contradictions").map (·.2) with
    | some v => if jsonTruthy v then v else Json.arr []
    | none => Json.arr []
  | _ => Json.arr []

/-- Observable outcome of a `findContradictions` run: the returned
`contradictions` value, the number of model-call attempts performed, and the
progress messages emitted by the retry path. -/
structure ContradictionsResult where
  contradictions : Json
  attempts : Nat
  progress : List String

/-- Embedding of `findContradictions`, fuelled by the remaining attempts
(the recursion re-enters the function with `retryCount + 1`; from the entry
point the fuel `MAX_RETRIES + 1` strictly dominates the recursion depth, so
the fuel-0 row is unreachable).  The function is total: every path returns a
result — the source's never-throws guarantee. -/
def findContradictionsGo (allAnalysis : List AnalysisItem)
    (paragraphs : List Paragraph) (calls : Nat → Except JsError String) :
    Nat → Nat → ContradictionsResult
  | _, 0 => { contradictions := Json.arr [], attempts := 0, progress := [] }
  | retryCount, fuel + 1 =>
    if (analyzedSummary allAnalysis paragraphs).length < 3 then
      { contradictions := Json.arr [], attempts := 0, progress := [] }
    else
      match calls retryCount with
      | Except.ok content =>
        if content == "" || jsTrim content == "" then
          { contradictions := Json.arr [], attempts := 1, progress := [] }
        else
          { contradictions := contradictionsOf (extractJsonFromResponse content),
            attempts := 1, progress := [] }
      | Except.error e =>
        if shouldRetryContradictions e && decide (retryCount < MAX_RETRIES) then
          let res := findContradictionsGo allAnalysis paragraphs calls
            (retryCount + 1) fuel
          { contradictions := res.contradictions
            attempts := res.attempts + 1
            progress := ("Этап 4/7: Поиск противоречий... Повторная попытка " ++
              toString (retryCount + 2) ++ "/" ++ toString (MAX_RETRIES + 1)) ::
              res.progress }
        else { contradictions := Json.arr [], attempts := 1, progress := [] }

/-- `findContradictions` entry point (`retryCount = 0`). -/
def findContradictions (allAnalysis : List AnalysisItem)
    (paragraphs : List Paragraph) (calls : Nat → Except JsError String) :
    ContradictionsResult :=
  findContradictionsGo allAnalysis paragraphs calls 0 (MAX_RETRIES + 1)

/-- Three classified items, enough for the digest threshold. -/
def sampleSummaryAnalysis : List AnalysisItem :=
  [⟨"p1", some "risk", some "риск поставки", none, none, none⟩,
   ⟨"p2", some "risk", some "риск оплаты", none, none, none⟩,
   ⟨"p3", some "ambiguous", some "неясная формулировка", none, none, none⟩]

/-- A pure quota-exhaustion error (not rate-limited, not a network or token
error). -/
def quotaError : JsError :=
  { message := "You exceeded your current quota", status := none,
    code := some "insufficient_quota", isDeepSeekError := true }

/-- A token-limit error (not quota, not rate-limited, not network). -/
def tokenError : JsError :=
  { message := "Request exceeds the maximum token limit", status := none,
    code := none, isDeepSeekError := true }

/-- C3 counterexample: a quota-exhaustion error on the first call IS
retried — `handleApiError` recommends a retry for quota errors (after
marking the key exhausted), so the run performs all four attempts and the
progress callback reports three retry messages (`Повторная попытка`),
contradicting the claim that quota errors are never retried. -/
theorem quota_error_is_retried :
    isQuotaExhaustedError quotaError = true ∧
    (findContradictions sampleSummaryAnalysis []
        (fun _ => Except.error quotaError)).attempts = 4 ∧
    (findContradictions sampleSummaryAnalysis []
        (fun _ => Except.error quotaError)).progress.length = 3 ∧
    containsStr ((findContradictions sampleSummaryAnalysis []
        (fun _ => Except.error quotaError)).progress.headD "")
      "Повторная попытка" = true := by
  exact ⟨rfl, rfl, rfl, rfl⟩

/-- Exhaustion bound: when every attempt fails, the run returns the empty
contradictions array within the attempt budget. -/
theorem findContradictionsGo_exhaust (allAnalysis : List AnalysisItem)
    (paragraphs : List Paragraph) (calls : Nat → Except JsError String)
    (hfail : ∀ i, ∃ e, calls i = Except.error e) :
    ∀ (fuel retryCount : Nat),
      (findContradictionsGo allAnalysis paragraphs calls retryCount
          fuel).contradictions = Json.arr [] ∧
      (findContradictionsGo allAnalysis paragraphs calls retryCount
          fuel).attempts ≤ fuel := by
  intro fuel
  induction fuel with
  | zero => intro rc; exact ⟨rfl, Nat.le_refl 0⟩
  | succ fuel ih =>
    intro rc
    constructor
    · rw [findContradictionsGo]
      split
      · rfl
      · split
        · rename_i content heq
          obtain ⟨e, he⟩ := hfail rc
          rw [heq] at he
          simp at he
        · split
          · exact (ih (rc + 1)).1
          · rfl
    · rw [findContradictionsGo]
      split
      · exact Nat.zero_le _
      · split
        · split
          · exact Nat.succ_le_succ (Nat.zero_le _)
          · exact Nat.succ_le_succ (Nat.zero_le _)
        · split
          · exact Nat.succ_le_succ (ih (rc + 1)).2
          · exact Nat.succ_le_succ (Nat.zero_le _)

/-- C3 (amended).  The retry policy of `findContradictions`: (1) an error the
catch block classifies as non-retryable — in particular a token-limit error
that is neither quota, rate-limit nor network — exits after the single
attempt with `\x7bcontradictions: []\x7d` and no retry-progress message;
(2) when every attempt fails (any error pattern), the run never throws and
returns `\x7bcontradictions: []\x7d` within at most `MAX_RETRIES + 1`
attempts; (3) a token-classified error that matches no other pattern is
never retried; (4) a quota-exhaustion error is always classified as
retryable (contrary to the original claim). -/
theorem findContradictions_retry_policy (allAnalysis : List AnalysisItem)
    (paragraphs : List Paragraph) (calls : Nat → Except JsError String) :
    (∀ e, 3 ≤ (analyzedSummary allAnalysis paragraphs).length →
      calls 0 = Except.error e → shouldRetryContradictions e = false →
      findContradictions allAnalysis paragraphs calls =
        { contradictions := Json.arr [], attempts := 1, progress := [] }) ∧
    ((∀ i, ∃ e, calls i = Except.error e) →
      (findContradictions allAnalysis paragraphs calls).contradictions =
          Json.arr [] ∧
      (findContradictions allAnalysis paragraphs calls).attempts ≤
          MAX_RETRIES + 1) ∧
    (∀ e, isTokenError e = true → isNetworkError e = false →
      isQuotaExhaustedError e = false → isRateLimitedError e = false →
      shouldRetryContradictions e = false) ∧
    (∀ e, isQuotaExhaustedError e = true →
      shouldRetryContradictions e = true) := by
  refine ⟨?_, ?_, ?_, ?_⟩
  · intro e hsum hcall hsr
    rw [findContradictions, findContradictionsGo, if_neg (by omega)]
    split
    · rename_i content heq
      rw [heq] at hcall
      simp at hcall
    · rename_i e2 heq
      rw [heq] at hcall
      injection hcall with h
      subst h
      rw [if_neg (by simp [hsr])]
  · intro hfail
    exact findContradictionsGo_exhaust allAnalysis paragraphs calls hfail
      (MAX_RETRIES + 1) 0
  · intro e htok hnet hquota hrate
    rw [shouldRetryContradictions, if_neg (by simp [hnet]), if_neg (by
      simp [htok])]
    simp [handleApiErrorRetry, hquota, hrate]
  · intro e hquota
    rw [shouldRetryContradictions]
    by_cases hnet : isNetworkError e = true
    · rw [if_pos hnet]
    · rw [if_neg hnet]
      have hh : handleApiErrorRetry e = true := by
        simp [handleApiErrorRetry, hquota]
      rw [if_neg (by simp [hh])]
      exact hh

/-- Witness for C3: the amended theorem applied to the token-error run. -/
theorem findContradictions_retry_policy_witness :
    findContradictions sampleSummaryAnalysis []
        (fun _ => Except.error tokenError) =
      { contradictions := Json.arr [], attempts := 1, progress := [] } :=
  (findContradictions_retry_policy sampleSummaryAnalysis []
      (fun _ => Except.error tokenError)).1 tokenError (by decide) rfl (by rfl)

end ContractAnalyzer
